import Mathlib

/-!
# HierarchyClipboard: snapshot capture and restore over a tree of items

Shallow embedding of `dev/Code/Sandbox/Plugins/UiCanvasEditor/HierarchyClipboard.cpp`.

* The tree widget is a forest of `HierarchyItem`s hanging below the invisible root item.
* An item pointer (`HierarchyItem*`, `QTreeWidgetItem*`) is the position of the item
  in that forest: the list of child indices leading from the invisible root to it.
  The empty position is the invisible root item itself, which is not a `HierarchyItem`.
* `AZ_Assert` failures are the `Except.error` outcome, carrying the assertion text.
* The entry list taken by reference and mutated in place is threaded through as a value.
-/

namespace HierarchyClipboard

/-! ## Data model -/

/-- The type `AZ::EntityId`; `none` is the default-constructed, invalid id `AZ::EntityId()`. -/
abbrev EntityId := Option Nat

/-- The type `AZ::Data::AssetId`, an opaque reference identifier. -/
abbrev AssetId := Nat

/-- The content of an `AZ::Entity` (with its descendants), opaque to the clipboard code. -/
abbrev Entity := String

/-- The type `AZ::Entity*`; `none` is `nullptr`. -/
abbrev EntityPtr := Option Entity

/-- The type `LyShine::EntityArray`. -/
abbrev EntityArray := List EntityPtr

/-- A `HierarchyItem` of the tree widget: its entity id, its element and its child items in
child order. -/
inductive HierarchyItem where
  | mk (entityId : EntityId) (element : EntityPtr) (children : List HierarchyItem)

/-- Entity id stored in an item. -/
def HierarchyItem.entityId : HierarchyItem → EntityId
  | .mk id _ _ => id

/-- Element stored in an item. -/
def HierarchyItem.element : HierarchyItem → EntityPtr
  | .mk _ el _ => el

/-- Child items of an item, in child order. -/
def HierarchyItem.children : HierarchyItem → List HierarchyItem
  | .mk _ _ ch => ch

/-- An item pointer: the child indices leading from the invisible root item to the item.
The empty list points at the invisible root item. -/
abbrev ItemPtr := List Nat

/-- The type `HierarchyItemRawPtrList` (also used for `QTreeWidgetItemRawPtrQList`). -/
abbrev HierarchyItemRawPtrList := List ItemPtr

/-- The `HierarchyWidget`: the children of its invisible root item and the currently
selected items. -/
structure HierarchyWidget where
  invisibleRootItem : List HierarchyItem
  selection : List ItemPtr

/-- The record `SerializeHelpers::SerializedEntry`, fields in the order of the brace
initialiser in `Serialize`. -/
structure SerializedEntry where
  m_id : EntityId
  m_parentId : EntityId
  m_insertAboveThisId : EntityId
  m_undoXml : String
  m_redoXml : String
  m_referencedSliceAssets : List AssetId
  deriving DecidableEq

/-- The type `SerializeHelpers::SerializedEntryList`. -/
abbrev SerializedEntryList := List SerializedEntry

/-- Modelled from the spec: the codec collaborator of §6, missing from the sources
(`SerializeHelpers::SaveElementsToXmlString`, and the decoding done inside
`HierarchyItem::ReplaceElement`). `SaveElementsToXmlString` returns the encoded blob
and the set of referenced slice assets it collected; `LoadElement` decodes a blob,
given the referenced slice assets, into the content put into an item. -/
structure Codec where
  SaveElementsToXmlString : EntityArray → String × List AssetId
  LoadElement : String → List AssetId → EntityPtr

/-! ## Tree access through item pointers -/

/-- Follow child indices downwards from an item. -/
def HierarchyItem.descend : HierarchyItem → List Nat → Option HierarchyItem
  | it, [] => some it
  | it, k :: rest =>
    match it.children[k]? with
    | some c => c.descend rest
    | none => none

/-- The `HierarchyItem` an item pointer points at. The invisible root item is not a
`HierarchyItem`, and a position outside the tree points at nothing. -/
def itemAt (items : List HierarchyItem) : ItemPtr → Option HierarchyItem
  | [] => none
  | k :: rest =>
    match items[k]? with
    | some it => it.descend rest
    | none => none

/-- The call `i->GetElement()`; a pointer at no item has no element. -/
def GetElement (widget : HierarchyWidget) (i : ItemPtr) : EntityPtr :=
  match itemAt widget.invisibleRootItem i with
  | some it => it.element
  | none => none

/-- The call `i->GetEntityId()`; a pointer at no item yields the invalid id. -/
def GetEntityId (widget : HierarchyWidget) (i : ItemPtr) : EntityId :=
  match itemAt widget.invisibleRootItem i with
  | some it => it.entityId
  | none => none

/-- The call `i->QTreeWidgetItem::parent()`: `nullptr` for a top-level item, whose parent
is the invisible root item. -/
def QTreeWidgetItem.parent (i : ItemPtr) : Option ItemPtr :=
  if i.dropLast = [] then none else some i.dropLast

/-- The call `i->Parent()`: the parent cast to `HierarchyItem*`. -/
def Parent (i : ItemPtr) : Option ItemPtr :=
  QTreeWidgetItem.parent i

/-- Child items of the tree item at a pointer; the empty pointer is the invisible root. -/
def childrenOf (widget : HierarchyWidget) (parentItem : ItemPtr) : List HierarchyItem :=
  match parentItem with
  | [] => widget.invisibleRootItem
  | _ :: _ =>
    match itemAt widget.invisibleRootItem parentItem with
    | some it => it.children
    | none => []

/-- The call `parentItem->indexOfChild(i)`: the index of `i` among the children of
`parentItem`, or `-1` when `i` is not one of them. -/
def indexOfChild (widget : HierarchyWidget) (parentItem i : ItemPtr) : Int :=
  match i.getLast? with
  | some k =>
    if i.dropLast = parentItem ∧ k < (childrenOf widget parentItem).length then (k : Int)
    else -1
  | none => -1

/-- The call `parentItem->child(index)`: `nullptr` when the index is out of range. -/
def child (widget : HierarchyWidget) (parentItem : ItemPtr) (index : Int) : Option ItemPtr :=
  if 0 ≤ index ∧ index.toNat < (childrenOf widget parentItem).length then
    some (parentItem ++ [index.toNat])
  else none

/-! ## Helpers missing from the sources -/

/-- The item `a` is a proper ancestor of the item `i`. -/
def isAncestorOf (a i : ItemPtr) : Bool :=
  a.isPrefixOf i && decide (a.length < i.length)

/-- Modelled from the spec: `SelectionHelpers::GetListOfTopLevelSelectedItems` is missing
from the sources. §3: the selection is reduced to the top-level selected nodes, a node
being excluded if an ancestor of it is also selected. -/
def GetListOfTopLevelSelectedItems (selectedItems : HierarchyItemRawPtrList) :
    HierarchyItemRawPtrList :=
  selectedItems.filter (fun i => !selectedItems.any (fun a => isAncestorOf a i))

/-- Document order on item positions: parent's child-list order, recursively, left to
right; an item comes before its descendants. -/
def hierarchyLE : ItemPtr → ItemPtr → Bool
  | [], _ => true
  | _ :: _, [] => false
  | a :: as, b :: bs => decide (a < b) || (a == b && hierarchyLE as bs)

/-- Document order as a relation. -/
def HierarchyOrder (a b : ItemPtr) : Prop := hierarchyLE a b = true

instance : DecidableRel HierarchyOrder := fun a b =>
  inferInstanceAs (Decidable (hierarchyLE a b = true))

/-- Modelled from the spec: `HierarchyHelpers::SortByHierarchyOrder` is missing from the
sources. §4.1: produce the ordered sequence matching each item's position under document
order. -/
def SortByHierarchyOrder (items : HierarchyItemRawPtrList) : HierarchyItemRawPtrList :=
  items.insertionSort HierarchyOrder

mutual
/-- Search an item and its descendants, in document order, for an entity id; the result
is the position relative to the item. -/
def HierarchyItem.findId (id : EntityId) : HierarchyItem → Option (List Nat)
  | .mk eid _ ch => if eid = id then some [] else findIdList id ch 0
/-- Search a list of sibling items, the first of which has child index `k`. -/
def findIdList (id : EntityId) : List HierarchyItem → Nat → Option (List Nat)
  | [], _ => none
  | x :: xs, k =>
    match x.findId id with
    | some p => some (k :: p)
    | none => findIdList id xs (k + 1)
end

/-- Modelled from the spec: `HierarchyHelpers::ElementToItem` (called with
`defaultToInvisibleRootItem == false`) is missing from the sources. §6: lookup node by
identity; `none` is `nullptr`, no live item has the id. -/
def ElementToItem (widget : HierarchyWidget) (id : EntityId) : Option ItemPtr :=
  findIdList id widget.invisibleRootItem 0

/-- Modelled from the spec: `HierarchyHelpers::AllItemExists` is missing from the sources.
§4.4 validate: every id in the entry list must resolve to a live node in the tree. -/
def AllItemExists (widget : HierarchyWidget) (entryList : SerializedEntryList) : Bool :=
  entryList.all (fun e => (ElementToItem widget e.m_id).isSome)

/-- Replace the element of the item reached by descending from an item. -/
def HierarchyItem.replaceAt (c : EntityPtr) : HierarchyItem → List Nat → HierarchyItem
  | .mk id _ ch, [] => .mk id c ch
  | .mk id el ch, k :: rest =>
    match ch[k]? with
    | some it => .mk id el (ch.set k (it.replaceAt c rest))
    | none => .mk id el ch

/-- Replace the element of the item at a pointer. -/
def replaceAt (c : EntityPtr) (items : List HierarchyItem) : ItemPtr → List HierarchyItem
  | [] => items
  | k :: rest =>
    match items[k]? with
    | some it => items.set k (it.replaceAt c rest)
    | none => items

/-- Modelled from the spec: `HierarchyItem::ReplaceElement` is missing from the sources.
§4.4: replace the content of the node with the decoded blob, the external references
being passed through to the decoder. -/
def ReplaceElement (codec : Codec) (widget : HierarchyWidget) (item : ItemPtr)
    (xml : String) (referencedSliceAssets : List AssetId) : HierarchyWidget :=
  { widget with
    invisibleRootItem :=
      replaceAt (codec.LoadElement xml referencedSliceAssets) widget.invisibleRootItem item }

/-- The call `widget->clearSelection()`. -/
def clearSelection (widget : HierarchyWidget) : HierarchyWidget :=
  { widget with selection := [] }

/-- Modelled from the spec: `HierarchyHelpers::SetSelectedItems` is missing from the
sources. §4.4: the restored identities become the selection; every entry whose id
resolves to an item has that item selected. -/
def SetSelectedItems (widget : HierarchyWidget) (entryList : SerializedEntryList) :
    HierarchyWidget :=
  { widget with
    selection :=
      (widget.selection ++ entryList.filterMap (fun e => ElementToItem widget e.m_id)).dedup }

/-! ## HierarchyClipboard.cpp -/

/-- Modelled from the spec: the macro `AZ_Assert` is missing from the sources. §7: a
contract violation is a defect of the caller and the implementation fails fast; a failed
assertion ends the call, the text of the assertion being the error. -/
def AZ_Assert (expression : Bool) (message : String) : Except String Unit :=
  if expression then .ok () else .error message

/-- The function `HierarchyClipboard::GetXml`: the blob and the referenced slice assets
(an in-out argument, untouched when there is nothing to encode). The root slice the
function fetches from the widget's editor window is part of the codec. -/
def GetXml (codec : Codec) (elements : EntityArray) (referencedSliceAssets : List AssetId) :
    String × List AssetId :=
  if elements.isEmpty then
    ("", referencedSliceAssets)
  else
    codec.SaveElementsToXmlString elements

/-- The call `std::find_if(entryList.begin(), entryList.end(), pred)`: the index of the
first entry satisfying the predicate; `none` is `entryList.end()`. -/
def find_if (pred : SerializedEntry → Bool) : SerializedEntryList → Option Nat
  | [] => none
  | entry :: rest => if pred entry then some 0 else (find_if pred rest).map (· + 1)

/-- The assignment `iter->m_redoXml = xml` through an iterator at index `k`. -/
def assignRedoXml (entryList : SerializedEntryList) (k : Nat) (xml : String) :
    SerializedEntryList :=
  match entryList[k]? with
  | some entry => entryList.set k { entry with m_redoXml := xml }
  | none => entryList

/-- One iteration of the loop of `HierarchyClipboard::Serialize` for the item `i`. -/
def serializeItem (codec : Codec) (widget : HierarchyWidget) (isUndo : Bool) (i : ItemPtr)
    (entryList : SerializedEntryList) : Except String SerializedEntryList := do
  let e := GetElement widget i
  AZ_Assert e.isSome "No entity found for item"
  -- serialize this entity (and its descendants) to XML and get the set of prefab
  -- references used by the serialized entities
  let r := GetXml codec [e] []
  let xml := r.1
  let referencedSliceAssets := r.2
  AZ_Assert (decide (xml ≠ "")) "Failed to serialize"
  if isUndo then
    let parentId : EntityId :=
      match Parent i with
      | some parent => GetEntityId widget parent
      | none => none
    let parentItem : ItemPtr :=
      match QTreeWidgetItem.parent i with
      | some p => p
      | none => []
    -- +1 : Because the insertion point is the next sibling.
    let insertAboveThisItem := child widget parentItem (indexOfChild widget parentItem i + 1)
    let insertAboveThisId : EntityId :=
      match insertAboveThisItem with
      | some it => GetEntityId widget it
      | none => none
    pure (entryList ++
      [{ m_id := GetEntityId widget i
         m_parentId := parentId
         m_insertAboveThisId := insertAboveThisId
         m_undoXml := xml
         m_redoXml := ""
         m_referencedSliceAssets := referencedSliceAssets }])
  else
    let id := GetEntityId widget i
    let iter := find_if (fun entry => entry.m_id == id) entryList
    -- This function should ALWAYS be called with ( isUndo == true ) first.
    AZ_Assert (decide (entryList.length > 0)) "Empty entry list"
    AZ_Assert iter.isSome "Entity ID not found in entryList"
    match iter with
    | some k => pure (assignRedoXml entryList k xml)
    | none => pure entryList -- not reached: the assertion on `iter` has failed

/-- The loop of `HierarchyClipboard::Serialize` over the sorted items. -/
def serializeLoop (codec : Codec) (widget : HierarchyWidget) (isUndo : Bool) :
    HierarchyItemRawPtrList → SerializedEntryList → Except String SerializedEntryList
  | [], entryList => .ok entryList
  | i :: rest, entryList =>
    match serializeItem codec widget isUndo i entryList with
    | .error msg => .error msg
    | .ok entryList1 => serializeLoop codec widget isUndo rest entryList1

/-- The items `HierarchyClipboard::Serialize` captures, before sorting: the optional list
when one is given, the top-level selected items otherwise. -/
def itemsToSerialize (selectedItems : HierarchyItemRawPtrList)
    (optionalItemsToSerialize : Option HierarchyItemRawPtrList) : HierarchyItemRawPtrList :=
  match optionalItemsToSerialize with
  | some items => items
  | none => GetListOfTopLevelSelectedItems selectedItems

/-- The function `HierarchyClipboard::Serialize`. -/
def Serialize (codec : Codec) (widget : HierarchyWidget)
    (selectedItems : HierarchyItemRawPtrList)
    (optionalItemsToSerialize : Option HierarchyItemRawPtrList)
    (entryList : SerializedEntryList) (isUndo : Bool) : Except String SerializedEntryList :=
  serializeLoop codec widget isUndo
    (SortByHierarchyOrder (itemsToSerialize selectedItems optionalItemsToSerialize)) entryList

/-- The replacement loop of `HierarchyClipboard::Unserialize`; dereferencing a null item
is an error. -/
def unserializeLoop (codec : Codec) (isUndo : Bool) :
    HierarchyWidget → SerializedEntryList → Except String HierarchyWidget
  | widget, [] => .ok widget
  | widget, e :: rest =>
    match ElementToItem widget e.m_id with
    | none => .error "null item"
    | some item =>
      unserializeLoop codec isUndo
        (ReplaceElement codec widget item (if isUndo then e.m_undoXml else e.m_redoXml)
          e.m_referencedSliceAssets) rest

/-- The function `HierarchyClipboard::Unserialize`: the returned flag and the widget
afterwards. -/
def Unserialize (codec : Codec) (widget : HierarchyWidget) (entryList : SerializedEntryList)
    (isUndo : Bool) : Except String (Bool × HierarchyWidget) :=
  if !AllItemExists widget entryList then
    -- At least one item is missing. Nothing to do.
    .ok (false, widget)
  else
    match unserializeLoop codec isUndo widget entryList with
    | .error msg => .error msg
    | .ok widget1 => .ok (true, SetSelectedItems (clearSelection widget1) entryList)

/-- The system clipboard: the mime type and the data last published, if any. -/
abbrev Clipboard := Option (String × String)

/-- The function `HierarchyClipboard::CopySelectedItemsToClipboard`; `mimeType` is the
constant `UICANVASEDITOR_MIMETYPE` and `hasEditor` tells whether `GetIEditor()` is
non-null. The result is the clipboard afterwards. -/
def CopySelectedItemsToClipboard (codec : Codec) (mimeType : String) (hasEditor : Bool)
    (widget : HierarchyWidget) (selectedItems : HierarchyItemRawPtrList)
    (clipboard : Clipboard) : Except String Clipboard := do
  -- selectedItems -> EntityArray.
  let elements : EntityArray :=
    (GetListOfTopLevelSelectedItems selectedItems).map (fun i => GetElement widget i)
  -- EntityArray -> XML.
  let xml := (GetXml codec elements []).1
  -- XML -> Clipboard.
  if xml ≠ "" then
    AZ_Assert hasEditor "Failed to get IEditor"
    pure (some (mimeType, xml))
  else
    pure clipboard

/-! ## Preconditions and the specification's words -/

/-- The encoding `Serialize` computes for the item `i`. -/
def xmlOf (codec : Codec) (widget : HierarchyWidget) (i : ItemPtr) : String :=
  (GetXml codec [GetElement widget i] []).1

/-- The two assertions at the head of the loop body of `Serialize` hold for the item:
it has an entity, and the entity's encoding is not empty. -/
def canSerialize (codec : Codec) (widget : HierarchyWidget) (i : ItemPtr) : Bool :=
  (GetElement widget i).isSome && decide (xmlOf codec widget i ≠ "")

/-- The entry of undo-capture in the words of the specification (§4.2, §4.3): the id of
the node, the id of its parent (absent for a top-level node), the id of the sibling that
immediately follows it in its parent's child order (absent when it is the last child),
the encoded subtree as undo blob, no redo blob, and the references of the codec. -/
def UndoEntryOf (codec : Codec) (widget : HierarchyWidget) (i : ItemPtr)
    (e : SerializedEntry) : Prop :=
  e.m_id = GetEntityId widget i ∧
  e.m_parentId = (if i.dropLast = [] then none else GetEntityId widget i.dropLast) ∧
  e.m_insertAboveThisId =
    (match i.getLast? with
     | some k => ((childrenOf widget i.dropLast)[k + 1]?).bind HierarchyItem.entityId
     | none => none) ∧
  e.m_undoXml = xmlOf codec widget i ∧
  e.m_redoXml = "" ∧
  e.m_referencedSliceAssets = (GetXml codec [GetElement widget i] []).2

/-- The node `t` is a top-level node of the selection, in the words of the specification
(§3): it is selected and no ancestor of it is selected. -/
def IsTopLevelSelected (selectedItems : HierarchyItemRawPtrList) (t : ItemPtr) : Prop :=
  t ∈ selectedItems ∧ ∀ b ∈ selectedItems, isAncestorOf b t = false

instance (selectedItems : HierarchyItemRawPtrList) (t : ItemPtr) :
    Decidable (IsTopLevelSelected selectedItems t) :=
  inferInstanceAs (Decidable (t ∈ selectedItems ∧ ∀ b ∈ selectedItems, isAncestorOf b t = false))

/-! ## Fixtures: the example scenario of the specification -/

/-- The tree `Root → [A, B, C]` with entity ids `Root = 1`, `A = 2`, `B = 3`, `C = 4`. -/
def exampleWidget : HierarchyWidget :=
  { invisibleRootItem :=
      [.mk (some 1) (some "root")
        [.mk (some 2) (some "a") [], .mk (some 3) (some "b") [], .mk (some 4) (some "c") []]]
    selection := [] }

/-- A codec that brackets the entity contents and reports one referenced asset. -/
def exampleCodec : Codec :=
  { SaveElementsToXmlString := fun els =>
      (String.join (els.map (fun e => "<" ++ e.getD "" ++ ">")), [7])
    LoadElement := fun xml _ => some xml }

/-- The entry undo-capture creates for `B` in the example tree. -/
def entryB : SerializedEntry :=
  { m_id := some 3
    m_parentId := some 1
    m_insertAboveThisId := some 4
    m_undoXml := "<b>"
    m_redoXml := ""
    m_referencedSliceAssets := [7] }

/-- An entry whose id names no item of the example tree. -/
def entryGone : SerializedEntry :=
  { m_id := some 9
    m_parentId := some 1
    m_insertAboveThisId := none
    m_undoXml := "<gone>"
    m_redoXml := ""
    m_referencedSliceAssets := [] }

/-- The example tree after the content of `B` has been edited. -/
def editedWidget : HierarchyWidget :=
  { invisibleRootItem :=
      [.mk (some 1) (some "root")
        [.mk (some 2) (some "a") [], .mk (some 3) (some "b2") [], .mk (some 4) (some "c") []]]
    selection := [] }

/-- The entry undo-capture creates for `Root` in the example tree. -/
def entryRoot : SerializedEntry :=
  { m_id := some 1
    m_parentId := none
    m_insertAboveThisId := none
    m_undoXml := "<root>"
    m_redoXml := ""
    m_referencedSliceAssets := [7] }

/-- A tree with two top-level items that carry the same entity id. -/
def twinWidget : HierarchyWidget :=
  { invisibleRootItem := [.mk (some 2) (some "a") [], .mk (some 2) (some "a2") []]
    selection := [] }

/-! ## Validation and restore -/

theorem allItemExists_false_of_missing (widget : HierarchyWidget)
    (entryList : SerializedEntryList)
    (h : ∃ e ∈ entryList, ElementToItem widget e.m_id = none) :
    AllItemExists widget entryList = false := by
  obtain ⟨e, he, hnone⟩ := h
  cases hall : AllItemExists widget entryList with
  | false => rfl
  | true =>
    have := (List.all_eq_true.mp hall) e he
    simp [hnone] at this

/-- C1: when at least one entry's id does not resolve to a live item, `Unserialize`
(either side) returns false and hands back the widget exactly as it was: no item content
is replaced, also not for the other, valid entries, and the selection is unchanged. -/
theorem Unserialize_missing_item_no_mutation (codec : Codec) (widget : HierarchyWidget)
    (entryList : SerializedEntryList) (isUndo : Bool)
    (h : ∃ e ∈ entryList, ElementToItem widget e.m_id = none) :
    Unserialize codec widget entryList isUndo = .ok (false, widget) := by
  unfold Unserialize
  rw [allItemExists_false_of_missing widget entryList h]
  rfl

theorem Unserialize_missing_item_no_mutation_witness :
    (∃ e ∈ [entryB, entryGone], ElementToItem exampleWidget e.m_id = none) ∧
    Unserialize exampleCodec exampleWidget [entryB, entryGone] true
      = .ok (false, exampleWidget) :=
  ⟨⟨entryGone, by decide, by decide⟩,
   Unserialize_missing_item_no_mutation exampleCodec exampleWidget [entryB, entryGone] true
     ⟨entryGone, by decide, by decide⟩⟩

/-! ### Replacing an element leaves the identities of the tree alone -/

theorem findIdList_set (id : EntityId) (x1 : HierarchyItem) :
    ∀ (items : List HierarchyItem) (k n : Nat),
      (∀ x, items[k]? = some x → x1.findId id = x.findId id) →
      findIdList id (items.set k x1) n = findIdList id items n := by
  intro items
  induction items with
  | nil => intro k n _; rfl
  | cons y ys ih =>
    intro k n h
    cases k with
    | zero =>
      have hy : x1.findId id = y.findId id := h y (by simp)
      simp only [List.set_cons_zero, findIdList, hy]
    | succ k =>
      have := ih k (n + 1) (fun x hx => h x (by simpa using hx))
      simp only [List.set_cons_succ, findIdList, this]

theorem HierarchyItem.findId_replaceAt (c : EntityPtr) (id : EntityId) :
    ∀ (p : List Nat) (it : HierarchyItem), (it.replaceAt c p).findId id = it.findId id := by
  intro p
  induction p with
  | nil =>
    intro it
    cases it with
    | mk eid el ch => simp [HierarchyItem.replaceAt, HierarchyItem.findId]
  | cons k rest ih =>
    intro it
    cases it with
    | mk eid el ch =>
      cases hk : ch[k]? with
      | none => simp [HierarchyItem.replaceAt, hk]
      | some x =>
        have hset : findIdList id (ch.set k (x.replaceAt c rest)) 0 = findIdList id ch 0 :=
          findIdList_set id _ ch k 0 (fun y hy => by
            rw [hk] at hy
            injection hy with hy
            subst hy
            exact ih _)
        simp [HierarchyItem.replaceAt, hk, HierarchyItem.findId, hset]

theorem ElementToItem_ReplaceElement (codec : Codec) (widget : HierarchyWidget)
    (item : ItemPtr) (xml : String) (refs : List AssetId) (id : EntityId) :
    ElementToItem (ReplaceElement codec widget item xml refs) id = ElementToItem widget id := by
  unfold ElementToItem ReplaceElement
  cases item with
  | nil => rfl
  | cons k rest =>
    simp only [replaceAt]
    cases hk : widget.invisibleRootItem[k]? with
    | none => rfl
    | some x =>
      exact findIdList_set id _ _ k 0 (fun y hy => by
        rw [hk] at hy
        injection hy with hy
        subst hy
        exact HierarchyItem.findId_replaceAt _ id rest _)

/-! ### What a replacement does to the item at each position -/

theorem HierarchyItem.entityId_replaceAt (c : EntityPtr) (p : List Nat) (it : HierarchyItem) :
    (it.replaceAt c p).entityId = it.entityId := by
  cases it with
  | mk eid el ch =>
    cases p with
    | nil => rfl
    | cons k rest =>
      cases hk : ch[k]? <;> simp [HierarchyItem.replaceAt, hk, HierarchyItem.entityId]

theorem HierarchyItem.element_replaceAt_nil (c : EntityPtr) (it : HierarchyItem) :
    (it.replaceAt c []).element = c := by
  cases it with
  | mk eid el ch => rfl

theorem HierarchyItem.element_replaceAt_cons (c : EntityPtr) (k : Nat) (rest : List Nat)
    (it : HierarchyItem) : (it.replaceAt c (k :: rest)).element = it.element := by
  cases it with
  | mk eid el ch =>
    cases hk : ch[k]? <;> simp [HierarchyItem.replaceAt, hk, HierarchyItem.element]

theorem HierarchyItem.descend_replaceAt (c : EntityPtr) :
    ∀ (q p : List Nat) (it : HierarchyItem),
      (it.replaceAt c p).descend q =
        if q <+: p then (it.descend q).map (fun x => x.replaceAt c (p.drop q.length))
        else it.descend q := by
  intro q
  induction q with
  | nil => intro p it; simp [HierarchyItem.descend]
  | cons j qs ih =>
    intro p it
    cases it with
    | mk eid el ch =>
      cases p with
      | nil => simp [HierarchyItem.replaceAt, HierarchyItem.descend, HierarchyItem.children]
      | cons k rest =>
        cases hk : ch[k]? with
        | none =>
          by_cases hjk : j = k
          · subst hjk
            simp [HierarchyItem.replaceAt, hk, HierarchyItem.descend, HierarchyItem.children]
          · simp [HierarchyItem.replaceAt, hk, HierarchyItem.descend, HierarchyItem.children,
              List.cons_prefix_cons, hjk]
        | some x =>
          have hlen : k < ch.length := by
            rcases Nat.lt_or_ge k ch.length with h | h
            · exact h
            · rw [List.getElem?_eq_none h] at hk; cases hk
          by_cases hjk : j = k
          · subst hjk
            simp only [HierarchyItem.replaceAt, hk, HierarchyItem.descend,
              HierarchyItem.children, List.getElem?_set_self hlen, ih rest x,
              List.cons_prefix_cons, true_and, List.length_cons, List.drop_succ_cons]
          · have hne : k ≠ j := fun h => hjk h.symm
            simp [HierarchyItem.replaceAt, hk, HierarchyItem.descend, HierarchyItem.children,
              List.getElem?_set_ne hne, List.cons_prefix_cons, hjk]

theorem itemAt_replaceAt (c : EntityPtr) (items : List HierarchyItem) (p q : ItemPtr) :
    itemAt (replaceAt c items p) q =
      if q <+: p then (itemAt items q).map (fun x => x.replaceAt c (p.drop q.length))
      else itemAt items q := by
  cases q with
  | nil => simp [itemAt]
  | cons j qs =>
    cases p with
    | nil => simp [replaceAt]
    | cons k rest =>
      cases hk : items[k]? with
      | none =>
        by_cases hjk : j = k
        · subst hjk
          simp [replaceAt, hk, itemAt]
        · simp [replaceAt, hk, itemAt, List.cons_prefix_cons, hjk]
      | some x =>
        have hlen : k < items.length := by
          rcases Nat.lt_or_ge k items.length with h | h
          · exact h
          · rw [List.getElem?_eq_none h] at hk; cases hk
        by_cases hjk : j = k
        · subst hjk
          simp only [replaceAt, hk, itemAt, List.getElem?_set_self hlen,
            HierarchyItem.descend_replaceAt c qs rest x,
            List.cons_prefix_cons, true_and, List.length_cons, List.drop_succ_cons]
        · have hne : k ≠ j := fun h => hjk h.symm
          simp [replaceAt, hk, itemAt, List.getElem?_set_ne hne, List.cons_prefix_cons, hjk]

theorem GetEntityId_ReplaceElement (codec : Codec) (widget : HierarchyWidget)
    (item : ItemPtr) (xml : String) (refs : List AssetId) (q : ItemPtr) :
    GetEntityId (ReplaceElement codec widget item xml refs) q = GetEntityId widget q := by
  unfold GetEntityId ReplaceElement
  simp only [itemAt_replaceAt]
  by_cases hq : q <+: item
  · simp only [hq, if_true]
    cases itemAt widget.invisibleRootItem q with
    | none => rfl
    | some x => simp [HierarchyItem.entityId_replaceAt]
  · simp only [hq, if_false]

theorem GetElement_ReplaceElement_other (codec : Codec) (widget : HierarchyWidget)
    (item : ItemPtr) (xml : String) (refs : List AssetId) (q : ItemPtr) (hne : q ≠ item) :
    GetElement (ReplaceElement codec widget item xml refs) q = GetElement widget q := by
  unfold GetElement ReplaceElement
  simp only [itemAt_replaceAt]
  by_cases hq : q <+: item
  · simp only [hq, if_true]
    cases itemAt widget.invisibleRootItem q with
    | none => rfl
    | some x =>
      obtain ⟨t, ht⟩ := hq
      have hdrop : List.drop q.length item = t := by
        rw [← ht]; simp
      cases t with
      | nil => exact absurd (by simpa using ht) hne
      | cons a t => simp [hdrop, HierarchyItem.element_replaceAt_cons]
  · simp only [hq, if_false]

theorem GetElement_ReplaceElement_self (codec : Codec) (widget : HierarchyWidget)
    (item : ItemPtr) (xml : String) (refs : List AssetId)
    (hlive : (itemAt widget.invisibleRootItem item).isSome = true) :
    GetElement (ReplaceElement codec widget item xml refs) item
      = codec.LoadElement xml refs := by
  unfold GetElement ReplaceElement
  simp only [itemAt_replaceAt, List.prefix_refl, if_true, List.drop_length]
  cases h : itemAt widget.invisibleRootItem item with
  | none => rw [h] at hlive; cases hlive
  | some x => simp [HierarchyItem.element_replaceAt_nil]

/-! ### The item found for an id is live and carries that id -/

theorem findId_sound_aux (t : HierarchyItem) :
    ∀ (id : EntityId) (p : List Nat), t.findId id = some p →
      ∃ x, t.descend p = some x ∧ x.entityId = id := by
  refine @HierarchyItem.rec
    (fun t => ∀ (id : EntityId) (p : List Nat), t.findId id = some p →
      ∃ x, t.descend p = some x ∧ x.entityId = id)
    (fun items => ∀ (id : EntityId) (n : Nat) (p : List Nat),
      findIdList id items n = some p →
      ∃ k rest it x, p = (n + k) :: rest ∧ items[k]? = some it ∧
        it.descend rest = some x ∧ x.entityId = id)
    ?_ ?_ ?_ t
  · intro eid el ch ihch id p h
    simp only [HierarchyItem.findId] at h
    by_cases he : eid = id
    · simp only [he, if_true, Option.some.injEq] at h
      subst h
      exact ⟨_, rfl, he⟩
    · simp only [he, if_false] at h
      obtain ⟨k, rest, it, x, hp, hk, hd, hx⟩ := ihch id 0 p h
      refine ⟨x, ?_, hx⟩
      subst hp
      simp [HierarchyItem.descend, HierarchyItem.children, hk, hd]
  · intro id n p h
    simp [findIdList] at h
  · intro y ys ihy ihys id n p h
    simp only [findIdList] at h
    cases hy : y.findId id with
    | some q =>
      simp only [hy, Option.some.injEq] at h
      obtain ⟨x, hd, hx⟩ := ihy id q hy
      exact ⟨0, q, y, x, by simpa using h.symm, by simp, hd, hx⟩
    | none =>
      simp only [hy] at h
      obtain ⟨k, rest, it, x, hp, hk, hd, hx⟩ := ihys id (n + 1) p h
      exact ⟨k + 1, rest, it, x, by rw [hp]; congr 1; omega, by simpa using hk, hd, hx⟩

theorem findIdList_sound (items : List HierarchyItem) :
    ∀ (id : EntityId) (n : Nat) (p : List Nat), findIdList id items n = some p →
      ∃ k rest it x, p = (n + k) :: rest ∧ items[k]? = some it ∧
        it.descend rest = some x ∧ x.entityId = id := by
  induction items with
  | nil => intro id n p h; simp [findIdList] at h
  | cons y ys ih =>
    intro id n p h
    simp only [findIdList] at h
    cases hy : y.findId id with
    | some q =>
      simp only [hy, Option.some.injEq] at h
      obtain ⟨x, hd, hx⟩ := findId_sound_aux y id q hy
      exact ⟨0, q, y, x, by simpa using h.symm, by simp, hd, hx⟩
    | none =>
      simp only [hy] at h
      obtain ⟨k, rest, it, x, hp, hk, hd, hx⟩ := ih id (n + 1) p h
      exact ⟨k + 1, rest, it, x, by rw [hp]; congr 1; omega, by simpa using hk, hd, hx⟩

theorem ElementToItem_sound (widget : HierarchyWidget) (id : EntityId) (i : ItemPtr)
    (h : ElementToItem widget id = some i) :
    (itemAt widget.invisibleRootItem i).isSome = true ∧ GetEntityId widget i = id := by
  obtain ⟨k, rest, it, x, hp, hk, hd, hx⟩ := findIdList_sound _ id 0 i h
  subst hp
  simp [GetEntityId, itemAt, hk, hd, hx]

/-! ### The replacement loop -/

theorem unserializeLoop_spec (codec : Codec) (isUndo : Bool) :
    ∀ (entryList : SerializedEntryList) (widget : HierarchyWidget),
      (∀ e ∈ entryList, ElementToItem widget e.m_id ≠ none) →
      ∃ w1, unserializeLoop codec isUndo widget entryList = .ok w1 ∧
        (∀ id, ElementToItem w1 id = ElementToItem widget id) ∧
        (∀ q, GetEntityId w1 q = GetEntityId widget q) ∧
        w1.selection = widget.selection ∧
        (∀ pre e post i, entryList = pre ++ e :: post →
          ElementToItem widget e.m_id = some i →
          (∀ e2 ∈ post, ElementToItem widget e2.m_id ≠ some i) →
          GetElement w1 i =
            codec.LoadElement (if isUndo then e.m_undoXml else e.m_redoXml)
              e.m_referencedSliceAssets) ∧
        (∀ i, (∀ e ∈ entryList, ElementToItem widget e.m_id ≠ some i) →
          GetElement w1 i = GetElement widget i) ∧
        w1.invisibleRootItem =
          entryList.foldl (fun items e =>
            replaceAt
              (codec.LoadElement (if isUndo then e.m_undoXml else e.m_redoXml)
                e.m_referencedSliceAssets)
              items ((ElementToItem widget e.m_id).getD [])) widget.invisibleRootItem := by
  intro entryList
  induction entryList with
  | nil =>
    intro widget _
    refine ⟨widget, rfl, fun _ => rfl, fun _ => rfl, rfl, ?_, fun _ _ => rfl, rfl⟩
    intro pre e post i h
    simp at h
  | cons e rest ih =>
    intro widget h
    have he : ElementToItem widget e.m_id ≠ none := h e (List.mem_cons_self _ _)
    obtain ⟨item, hitem⟩ := Option.ne_none_iff_exists'.mp he
    have hrest : ∀ e2 ∈ rest,
        ElementToItem (ReplaceElement codec widget item
          (if isUndo then e.m_undoXml else e.m_redoXml) e.m_referencedSliceAssets) e2.m_id
          ≠ none := by
      intro e2 he2
      rw [ElementToItem_ReplaceElement]
      exact h e2 (List.mem_cons_of_mem _ he2)
    obtain ⟨w1, hrun, hfind, hid, hsel, hlast, hother, hfold⟩ := ih _ hrest
    refine ⟨w1, ?_, ?_, ?_, ?_, ?_, ?_, ?_⟩
    · simp only [unserializeLoop, hitem]
      exact hrun
    · intro id
      rw [hfind, ElementToItem_ReplaceElement]
    · intro q
      rw [hid, GetEntityId_ReplaceElement]
    · rw [hsel]; rfl
    · intro pre e1 post i hsplit hres hpost
      cases pre with
      | nil =>
        simp only [List.nil_append, List.cons.injEq] at hsplit
        obtain ⟨h1, h2⟩ := hsplit
        subst h1
        subst h2
        rw [hitem] at hres
        injection hres with hres
        subst hres
        rw [hother item (fun e2 he2 => by
          rw [ElementToItem_ReplaceElement]; exact hpost e2 he2)]
        exact GetElement_ReplaceElement_self codec widget item _ _
          (ElementToItem_sound widget _ _ hitem).1
      | cons e0 pre =>
        simp only [List.cons_append, List.cons.injEq] at hsplit
        obtain ⟨_, h2⟩ := hsplit
        exact hlast pre e1 post i h2 (by rw [ElementToItem_ReplaceElement]; exact hres)
          (fun e2 he2 => by rw [ElementToItem_ReplaceElement]; exact hpost e2 he2)
    · intro i hi
      have hne : i ≠ item := by
        intro hEq
        exact hi e (List.mem_cons_self _ _) (by rw [hitem, hEq])
      rw [hother i (fun e2 he2 => by
        rw [ElementToItem_ReplaceElement]; exact hi e2 (List.mem_cons_of_mem _ he2))]
      exact GetElement_ReplaceElement_other codec widget item _ _ i hne
    · rw [hfold]
      simp only [List.foldl_cons, hitem, Option.getD_some, ElementToItem_ReplaceElement]
      rfl

/-- C5: when every id of the entry list resolves to a live item, `Unserialize` returns
true; the tree afterwards is the result of replacing, entry by entry in list order, the
content of the item the entry's id identifies by the decoding of the undo blob (isUndo)
or the redo blob (otherwise), the entry's referenced slice assets being handed to the
decoder. Hence the last entry resolving to an item decides its content, items no entry
resolves to keep theirs, no identity changes, and the selection afterwards is exactly the
set of ids of the entry list. -/
theorem Unserialize_replaces_and_selects (codec : Codec) (widget : HierarchyWidget)
    (entryList : SerializedEntryList) (isUndo : Bool)
    (h : ∀ e ∈ entryList, ElementToItem widget e.m_id ≠ none) :
    ∃ w1, Unserialize codec widget entryList isUndo = .ok (true, w1) ∧
      w1.invisibleRootItem =
        entryList.foldl (fun items e =>
          replaceAt
            (codec.LoadElement (if isUndo then e.m_undoXml else e.m_redoXml)
              e.m_referencedSliceAssets)
            items ((ElementToItem widget e.m_id).getD [])) widget.invisibleRootItem ∧
      (∀ q, GetEntityId w1 q = GetEntityId widget q) ∧
      (∀ pre e post i, entryList = pre ++ e :: post →
        ElementToItem widget e.m_id = some i →
        (∀ e2 ∈ post, ElementToItem widget e2.m_id ≠ some i) →
        GetElement w1 i =
          codec.LoadElement (if isUndo then e.m_undoXml else e.m_redoXml)
            e.m_referencedSliceAssets) ∧
      (∀ i, (∀ e ∈ entryList, ElementToItem widget e.m_id ≠ some i) →
        GetElement w1 i = GetElement widget i) ∧
      (∀ id, id ∈ w1.selection.map (GetEntityId w1) ↔ id ∈ entryList.map (fun e => e.m_id)) := by
  obtain ⟨w1, hrun, hfind, hid, _, hlast, hother, hfold⟩ :=
    unserializeLoop_spec codec isUndo entryList widget h
  have hall : AllItemExists widget entryList = true := by
    unfold AllItemExists
    rw [List.all_eq_true]
    intro e he
    cases hres : ElementToItem widget e.m_id with
    | none => exact absurd hres (h e he)
    | some i => rfl
  refine ⟨SetSelectedItems (clearSelection w1) entryList, ?_, hfold, hid, hlast, hother, ?_⟩
  · simp only [Unserialize, hall, hrun]
    rfl
  · intro id
    have hsel : ∀ i, i ∈ (SetSelectedItems (clearSelection w1) entryList).selection ↔
        ∃ e ∈ entryList, ElementToItem widget e.m_id = some i := by
      intro i
      simp only [SetSelectedItems, clearSelection, List.nil_append, List.mem_dedup,
        List.mem_filterMap]
      constructor
      · rintro ⟨e, he, hres⟩
        exact ⟨e, he, by rw [← hfind]; exact hres⟩
      · rintro ⟨e, he, hres⟩
        exact ⟨e, he, by rw [← hfind] at hres; exact hres⟩
    have hidw : ∀ q, GetEntityId (SetSelectedItems (clearSelection w1) entryList) q
        = GetEntityId widget q := fun q => hid q
    simp only [List.mem_map]
    constructor
    · rintro ⟨i, hi, hq⟩
      obtain ⟨e, he, hres⟩ := (hsel i).mp hi
      refine ⟨e, he, ?_⟩
      rw [← hq, hidw]
      exact ((ElementToItem_sound widget _ _ hres).2).symm
    · rintro ⟨e, he, hq⟩
      obtain ⟨i, hres⟩ := Option.ne_none_iff_exists'.mp (h e he)
      refine ⟨i, (hsel i).mpr ⟨e, he, hres⟩, ?_⟩
      rw [hidw, ← hq]
      exact (ElementToItem_sound widget _ _ hres).2

theorem Unserialize_replaces_and_selects_witness :
    (∀ e ∈ [entryB], ElementToItem exampleWidget e.m_id ≠ none) ∧
    ∃ w1, Unserialize exampleCodec exampleWidget [entryB] true = .ok (true, w1) ∧
      GetElement w1 [0, 1] = some "<b>" ∧ w1.selection.map (GetEntityId w1) = [some 3] := by
  refine ⟨by decide, ?_⟩
  obtain ⟨w1, hrun, _, _, hlast, _, _⟩ :=
    Unserialize_replaces_and_selects exampleCodec exampleWidget [entryB] true (by decide)
  refine ⟨w1, hrun, hlast [] entryB [] [0, 1] rfl (by decide) (by simp), ?_⟩
  have hw : Unserialize exampleCodec exampleWidget [entryB] true
      = .ok (true,
          { invisibleRootItem :=
              [.mk (some 1) (some "root")
                [.mk (some 2) (some "a") [], .mk (some 3) (some "<b>") [],
                 .mk (some 4) (some "c") []]]
            selection := [[0, 1]] }) := rfl
  rw [hw] at hrun
  injection hrun with hrun
  injection hrun with _ hrun
  subst hrun
  rfl

/-! ## Document order -/

theorem hierarchyLE_total : ∀ a b : ItemPtr, hierarchyLE a b = true ∨ hierarchyLE b a = true := by
  intro a
  induction a with
  | nil => intro b; left; rfl
  | cons x xs ih =>
    intro b
    cases b with
    | nil => right; rfl
    | cons y ys =>
      simp only [hierarchyLE, Bool.or_eq_true, decide_eq_true_eq, Bool.and_eq_true, beq_iff_eq]
      rcases Nat.lt_trichotomy x y with h | h | h
      · left; left; exact h
      · rcases ih ys with h2 | h2
        · left; right; exact ⟨h, h2⟩
        · right; right; exact ⟨h.symm, h2⟩
      · right; left; exact h

theorem hierarchyLE_trans : ∀ a b c : ItemPtr,
    hierarchyLE a b = true → hierarchyLE b c = true → hierarchyLE a c = true := by
  intro a
  induction a with
  | nil => intro b c _ _; rfl
  | cons x xs ih =>
    intro b c hab hbc
    cases b with
    | nil => simp [hierarchyLE] at hab
    | cons y ys =>
      cases c with
      | nil => simp [hierarchyLE] at hbc
      | cons z zs =>
        simp only [hierarchyLE, Bool.or_eq_true, decide_eq_true_eq, Bool.and_eq_true,
          beq_iff_eq] at hab hbc ⊢
        rcases hab with h1 | ⟨h1, h1'⟩
        · rcases hbc with h2 | ⟨h2, _⟩
          · left; omega
          · left; omega
        · rcases hbc with h2 | ⟨h2, h2'⟩
          · left; omega
          · right; exact ⟨by omega, ih ys zs h1' h2'⟩

theorem hierarchyLE_antisymm : ∀ a b : ItemPtr,
    hierarchyLE a b = true → hierarchyLE b a = true → a = b := by
  intro a
  induction a with
  | nil =>
    intro b _ hba
    cases b with
    | nil => rfl
    | cons y ys => simp [hierarchyLE] at hba
  | cons x xs ih =>
    intro b hab hba
    cases b with
    | nil => simp [hierarchyLE] at hab
    | cons y ys =>
      simp only [hierarchyLE, Bool.or_eq_true, decide_eq_true_eq, Bool.and_eq_true,
        beq_iff_eq] at hab hba
      rcases hab with h1 | ⟨h1, h1'⟩
      · rcases hba with h2 | ⟨h2, _⟩ <;> omega
      · rcases hba with h2 | ⟨_, h2'⟩
        · omega
        · rw [h1, ih ys h1' h2']

theorem SortByHierarchyOrder_perm (items : HierarchyItemRawPtrList) :
    (SortByHierarchyOrder items).Perm items :=
  List.perm_insertionSort HierarchyOrder items

theorem SortByHierarchyOrder_sorted (items : HierarchyItemRawPtrList) :
    (SortByHierarchyOrder items).Sorted HierarchyOrder := by
  haveI : IsTotal ItemPtr HierarchyOrder := ⟨hierarchyLE_total⟩
  haveI : IsTrans ItemPtr HierarchyOrder := ⟨hierarchyLE_trans⟩
  exact List.sorted_insertionSort HierarchyOrder items

theorem SortByHierarchyOrder_congr (l1 l2 : HierarchyItemRawPtrList) (h : l1.Perm l2) :
    SortByHierarchyOrder l1 = SortByHierarchyOrder l2 := by
  haveI : IsAntisymm ItemPtr HierarchyOrder := ⟨hierarchyLE_antisymm⟩
  exact List.eq_of_perm_of_sorted
    (((SortByHierarchyOrder_perm l1).trans h).trans (SortByHierarchyOrder_perm l2).symm)
    (SortByHierarchyOrder_sorted l1) (SortByHierarchyOrder_sorted l2)

theorem mem_SortByHierarchyOrder (items : HierarchyItemRawPtrList) (i : ItemPtr) :
    i ∈ SortByHierarchyOrder items ↔ i ∈ items :=
  (SortByHierarchyOrder_perm items).mem_iff

theorem GetListOfTopLevelSelectedItems_perm (s1 s2 : HierarchyItemRawPtrList)
    (h : s1.Perm s2) :
    (GetListOfTopLevelSelectedItems s1).Perm (GetListOfTopLevelSelectedItems s2) := by
  unfold GetListOfTopLevelSelectedItems
  have hany : ∀ i, s1.any (fun a => isAncestorOf a i) = s2.any (fun a => isAncestorOf a i) := by
    intro i
    rw [Bool.eq_iff_iff, List.any_eq_true, List.any_eq_true]
    constructor
    · rintro ⟨a, ha, hp⟩; exact ⟨a, h.mem_iff.mp ha, hp⟩
    · rintro ⟨a, ha, hp⟩; exact ⟨a, h.mem_iff.mpr ha, hp⟩
  have hfun : (fun i => !s1.any (fun a => isAncestorOf a i))
      = (fun i => !s2.any (fun a => isAncestorOf a i)) := by
    funext i; rw [hany]
  rw [hfun]
  exact h.filter _

/-! ## The loop body of `Serialize`, undo side -/

theorem HierarchyItem.descend_concat (k : Nat) :
    ∀ (q : List Nat) (it : HierarchyItem),
      it.descend (q ++ [k]) = (it.descend q).bind (fun x => x.children[k]?) := by
  intro q
  induction q with
  | nil =>
    intro it
    simp only [List.nil_append, HierarchyItem.descend, Option.some_bind]
    cases it.children[k]? <;> rfl
  | cons j q ih =>
    intro it
    simp only [List.cons_append, HierarchyItem.descend]
    cases it.children[j]? with
    | none => rfl
    | some c => exact ih c

theorem itemAt_concat (widget : HierarchyWidget) (p : ItemPtr) (k : Nat) :
    itemAt widget.invisibleRootItem (p ++ [k]) = (childrenOf widget p)[k]? := by
  cases p with
  | nil =>
    simp only [List.nil_append, itemAt, childrenOf]
    cases widget.invisibleRootItem[k]? <;> rfl
  | cons j q =>
    simp only [List.cons_append, itemAt, childrenOf]
    cases widget.invisibleRootItem[j]? with
    | none => rfl
    | some it =>
      simp only [HierarchyItem.descend_concat]
      cases it.descend q <;> rfl

theorem GetEntityId_concat (widget : HierarchyWidget) (p : ItemPtr) (k : Nat) :
    GetEntityId widget (p ++ [k])
      = ((childrenOf widget p)[k]?).bind HierarchyItem.entityId := by
  unfold GetEntityId
  rw [itemAt_concat]
  cases (childrenOf widget p)[k]? <;> rfl

theorem itemAt_nil (items : List HierarchyItem) : itemAt items [] = none := rfl

theorem live_shape (widget : HierarchyWidget) (i : ItemPtr) (it : HierarchyItem)
    (h : itemAt widget.invisibleRootItem i = some it) :
    ∃ k, i.getLast? = some k ∧ i = i.dropLast ++ [k] ∧
      (childrenOf widget i.dropLast)[k]? = some it := by
  cases hl : i.getLast? with
  | none =>
    rw [List.getLast?_eq_none_iff] at hl
    subst hl
    simp [itemAt] at h
  | some k =>
    have hsplit : i.dropLast ++ [k] = i := List.dropLast_append_getLast? k hl
    refine ⟨k, rfl, hsplit.symm, ?_⟩
    rw [← itemAt_concat, hsplit]
    exact h

theorem parentItem_eq (i : ItemPtr) :
    (match QTreeWidgetItem.parent i with
      | some p => p
      | none => []) = i.dropLast := by
  unfold QTreeWidgetItem.parent
  by_cases h : i.dropLast = []
  · simp [h]
  · simp [h]

theorem indexOfChild_eq (widget : HierarchyWidget) (i : ItemPtr) (k : Nat)
    (hk : i.getLast? = some k) (hlen : k < (childrenOf widget i.dropLast).length) :
    indexOfChild widget i.dropLast i = (k : Int) := by
  simp [indexOfChild, hk, hlen]

theorem child_succ (widget : HierarchyWidget) (p : ItemPtr) (k : Nat) :
    child widget p ((k : Int) + 1)
      = if k + 1 < (childrenOf widget p).length then some (p ++ [k + 1]) else none := by
  unfold child
  have h0 : (0 : Int) ≤ (k : Int) + 1 := by omega
  have h1 : ((k : Int) + 1).toNat = k + 1 := by omega
  simp only [h0, h1, true_and]

theorem canSerialize_iff (codec : Codec) (widget : HierarchyWidget) (i : ItemPtr) :
    canSerialize codec widget i = true ↔
      (GetElement widget i).isSome = true ∧ xmlOf codec widget i ≠ "" := by
  simp [canSerialize]

theorem canSerialize_xmlOf (codec : Codec) (widget : HierarchyWidget) (i : ItemPtr)
    (h : canSerialize codec widget i = true) : xmlOf codec widget i ≠ "" :=
  ((canSerialize_iff codec widget i).mp h).2

theorem serializeItem_eq (codec : Codec) (widget : HierarchyWidget) (isUndo : Bool)
    (i : ItemPtr) (entryList : SerializedEntryList)
    (h : canSerialize codec widget i = true) :
    serializeItem codec widget isUndo i entryList =
      if isUndo then
        .ok (entryList ++
          [SerializedEntry.mk (GetEntityId widget i)
            (match Parent i with
              | some parent => GetEntityId widget parent
              | none => none)
            (match child widget
                (match QTreeWidgetItem.parent i with
                  | some p => p
                  | none => [])
                (indexOfChild widget
                  (match QTreeWidgetItem.parent i with
                    | some p => p
                    | none => []) i + 1) with
              | some it => GetEntityId widget it
              | none => none)
            (xmlOf codec widget i) "" (GetXml codec [GetElement widget i] []).2])
      else if entryList.length = 0 then .error "Empty entry list"
      else
        match find_if (fun entry => entry.m_id == GetEntityId widget i) entryList with
        | some k => .ok (assignRedoXml entryList k (xmlOf codec widget i))
        | none => .error "Entity ID not found in entryList" := by
  obtain ⟨hel, hxml⟩ := (canSerialize_iff codec widget i).mp h
  unfold xmlOf at hxml
  cases isUndo with
  | true =>
    simp only [serializeItem, AZ_Assert, hel, hxml, bind, Except.bind, pure, Except.pure,
      xmlOf, if_true, decide_True, ne_eq, not_false_eq_true]
  | false =>
    by_cases hl : entryList.length = 0
    · have hnil : entryList = [] := List.length_eq_zero.mp hl
      subst hnil
      simp [serializeItem, AZ_Assert, hel, hxml, bind, Except.bind]
    · have hpos : entryList.length > 0 := Nat.pos_of_ne_zero hl
      cases hf : find_if (fun entry => entry.m_id == GetEntityId widget i) entryList with
      | none =>
        simp [serializeItem, AZ_Assert, hel, hxml, bind, Except.bind, hpos, hf, hl]
      | some k =>
        simp [serializeItem, AZ_Assert, hel, hxml, bind, Except.bind, hpos, hf, hl, pure,
          Except.pure, xmlOf]

theorem serializeItem_error (codec : Codec) (widget : HierarchyWidget) (isUndo : Bool)
    (i : ItemPtr) (entryList : SerializedEntryList)
    (h : canSerialize codec widget i = false) :
    ∃ msg, serializeItem codec widget isUndo i entryList = .error msg := by
  unfold canSerialize xmlOf at h
  cases hel : (GetElement widget i).isSome with
  | false =>
    exact ⟨"No entity found for item", by
      simp [serializeItem, AZ_Assert, hel, bind, Except.bind]⟩
  | true =>
    rw [hel] at h
    simp only [Bool.true_and, decide_eq_false_iff_not, ne_eq, not_not] at h
    exact ⟨"Failed to serialize", by
      simp [serializeItem, AZ_Assert, hel, h, bind, Except.bind]⟩

theorem serializeItem_undo (codec : Codec) (widget : HierarchyWidget) (i : ItemPtr)
    (entryList : SerializedEntryList) (h : canSerialize codec widget i = true) :
    ∃ e, serializeItem codec widget true i entryList = .ok (entryList ++ [e]) ∧
      UndoEntryOf codec widget i e := by
  obtain ⟨hel, _⟩ := (canSerialize_iff codec widget i).mp h
  have hlive : ∃ it, itemAt widget.invisibleRootItem i = some it := by
    unfold GetElement at hel
    cases hit : itemAt widget.invisibleRootItem i with
    | none => rw [hit] at hel; cases hel
    | some it => exact ⟨it, rfl⟩
  obtain ⟨it, hit⟩ := hlive
  obtain ⟨k, hk, _, hchild⟩ := live_shape widget i it hit
  have hlen : k < (childrenOf widget i.dropLast).length := by
    rcases Nat.lt_or_ge k (childrenOf widget i.dropLast).length with h1 | h1
    · exact h1
    · rw [List.getElem?_eq_none h1] at hchild; cases hchild
  refine ⟨_, by rw [serializeItem_eq codec widget true i entryList h]; rfl, ?_⟩
  refine ⟨rfl, ?_, ?_, rfl, rfl, rfl⟩
  · simp only [Parent, QTreeWidgetItem.parent]
    by_cases hd : i.dropLast = []
    · simp [hd]
    · simp [hd]
  · simp only [parentItem_eq, indexOfChild_eq widget i k hk hlen, child_succ, hk]
    by_cases hnext : k + 1 < (childrenOf widget i.dropLast).length
    · simp only [hnext, if_true]
      exact GetEntityId_concat widget i.dropLast (k + 1)
    · simp only [hnext, if_false]
      rw [List.getElem?_eq_none (Nat.le_of_not_lt hnext)]
      rfl

theorem serializeLoop_undo (codec : Codec) (widget : HierarchyWidget) :
    ∀ (items : HierarchyItemRawPtrList) (entryList : SerializedEntryList),
      (∀ i ∈ items, canSerialize codec widget i = true) →
      ∃ created, serializeLoop codec widget true items entryList = .ok (entryList ++ created) ∧
        List.Forall₂ (UndoEntryOf codec widget) items created := by
  intro items
  induction items with
  | nil =>
    intro entryList _
    exact ⟨[], by simp [serializeLoop], List.Forall₂.nil⟩
  | cons i rest ih =>
    intro entryList h
    obtain ⟨e, hstep, he⟩ :=
      serializeItem_undo codec widget i entryList (h i (List.mem_cons_self _ _))
    obtain ⟨created, hrun, hall⟩ :=
      ih (entryList ++ [e]) (fun j hj => h j (List.mem_cons_of_mem _ hj))
    refine ⟨e :: created, ?_, List.Forall₂.cons he hall⟩
    simp only [serializeLoop, hstep, hrun]
    simp

theorem Serialize_undo_spec (codec : Codec) (widget : HierarchyWidget)
    (selectedItems : HierarchyItemRawPtrList)
    (optionalItemsToSerialize : Option HierarchyItemRawPtrList)
    (entryList : SerializedEntryList)
    (hcan : ∀ i ∈ itemsToSerialize selectedItems optionalItemsToSerialize,
      canSerialize codec widget i = true) :
    ∃ created,
      Serialize codec widget selectedItems optionalItemsToSerialize entryList true
        = .ok (entryList ++ created) ∧
      List.Forall₂ (UndoEntryOf codec widget)
        (SortByHierarchyOrder (itemsToSerialize selectedItems optionalItemsToSerialize))
        created := by
  unfold Serialize
  exact serializeLoop_undo codec widget _ entryList
    (fun i hi => hcan i ((mem_SortByHierarchyOrder _ i).mp hi))

/-- C3: undo-capture of nodes that can be encoded appends one entry per captured node, in
hierarchy order; the entry for a node `n`, the child with index `k` of the tree item `p`,
records as parent id the id of `p` (the invalid id when `n` is top-level, `p` being the
invisible root) and as anchor id the id of the child with index `k + 1` of `p`, the
sibling immediately following `n` (the invalid id when `n` is the last child). -/
theorem Serialize_undo_records_parent_and_anchor (codec : Codec) (widget : HierarchyWidget)
    (selectedItems : HierarchyItemRawPtrList)
    (optionalItemsToSerialize : Option HierarchyItemRawPtrList)
    (entryList : SerializedEntryList)
    (hcan : ∀ i ∈ itemsToSerialize selectedItems optionalItemsToSerialize,
      canSerialize codec widget i = true) :
    ∃ created,
      Serialize codec widget selectedItems optionalItemsToSerialize entryList true
        = .ok (entryList ++ created) ∧
      List.Forall₂
        (fun n e =>
          e.m_id = GetEntityId widget n ∧
          ∀ p k, n = p ++ [k] →
            e.m_parentId = (if p = [] then none else GetEntityId widget p) ∧
            e.m_insertAboveThisId
              = ((childrenOf widget p)[k + 1]?).bind HierarchyItem.entityId)
        (SortByHierarchyOrder (itemsToSerialize selectedItems optionalItemsToSerialize))
        created := by
  obtain ⟨created, hrun, hall⟩ :=
    Serialize_undo_spec codec widget selectedItems optionalItemsToSerialize entryList hcan
  refine ⟨created, hrun, hall.imp ?_⟩
  intro n e he
  obtain ⟨hid, hparent, hanchor, _⟩ := he
  refine ⟨hid, ?_⟩
  intro p k hn
  subst hn
  simp only [List.dropLast_concat] at hparent hanchor
  refine ⟨hparent, ?_⟩
  rw [hanchor]
  simp

theorem Serialize_undo_records_parent_and_anchor_witness :
    (∀ i ∈ itemsToSerialize [[0, 1]] none, canSerialize exampleCodec exampleWidget i = true) ∧
    ∃ e, Serialize exampleCodec exampleWidget [[0, 1]] none [] true = .ok [e] ∧
      e.m_id = some 3 ∧ e.m_parentId = some 1 ∧ e.m_insertAboveThisId = some 4 := by
  refine ⟨by decide, ?_⟩
  obtain ⟨created, hrun, hall⟩ :=
    Serialize_undo_records_parent_and_anchor exampleCodec exampleWidget [[0, 1]] none []
      (by decide)
  have hsorted : SortByHierarchyOrder (itemsToSerialize [[0, 1]] none) = [[0, 1]] := by decide
  rw [hsorted] at hall
  cases hall with
  | cons he hrest =>
    cases hrest
    obtain ⟨hid, hpk⟩ := he
    obtain ⟨hparent, hanchor⟩ := hpk [0] 1 rfl
    exact ⟨_, hrun, hid, hparent, hanchor⟩

/-! ## The loop body of `Serialize`, redo side -/

theorem find_if_ids (id : EntityId) :
    ∀ (l1 l2 : SerializedEntryList),
      l1.map (fun e => e.m_id) = l2.map (fun e => e.m_id) →
      find_if (fun e => e.m_id == id) l1 = find_if (fun e => e.m_id == id) l2 := by
  intro l1
  induction l1 with
  | nil =>
    intro l2 h
    cases l2 with
    | nil => rfl
    | cons b l2 => simp at h
  | cons a l1 ih =>
    intro l2 h
    cases l2 with
    | nil => simp at h
    | cons b l2 =>
      simp only [List.map_cons, List.cons.injEq] at h
      simp only [find_if, h.1, ih l2 h.2]

theorem find_if_some (id : EntityId) :
    ∀ (l : SerializedEntryList) (k : Nat),
      find_if (fun e => e.m_id == id) l = some k → ∃ e, l[k]? = some e ∧ e.m_id = id := by
  intro l
  induction l with
  | nil => intro k h; simp [find_if] at h
  | cons a l ih =>
    intro k h
    simp only [find_if] at h
    by_cases ha : a.m_id = id
    · simp only [ha, beq_self_eq_true, if_true, Option.some.injEq] at h
      subst h
      exact ⟨a, by simp, ha⟩
    · have hb : (a.m_id == id) = false := by simpa using ha
      simp only [hb, Bool.false_eq_true, if_false, Option.map_eq_some'] at h
      obtain ⟨j, hj, hk⟩ := h
      obtain ⟨e, he, hid⟩ := ih j hj
      subst hk
      exact ⟨e, by simpa using he, hid⟩

theorem find_if_of_mem (id : EntityId) :
    ∀ (l : SerializedEntryList), id ∈ l.map (fun e => e.m_id) →
      ∃ k, find_if (fun e => e.m_id == id) l = some k := by
  intro l
  induction l with
  | nil => intro h; simp at h
  | cons a l ih =>
    intro h
    by_cases ha : a.m_id = id
    · exact ⟨0, by simp [find_if, ha]⟩
    · have hb : (a.m_id == id) = false := by simpa using ha
      have hmem : id ∈ l.map (fun e => e.m_id) := by
        simp only [List.map_cons, List.mem_cons] at h
        rcases h with h | h
        · exact absurd h.symm ha
        · exact h
      obtain ⟨k, hk⟩ := ih hmem
      exact ⟨k + 1, by simp [find_if, hb, hk]⟩

theorem find_if_mem (id : EntityId) (l : SerializedEntryList) (k : Nat)
    (h : find_if (fun e => e.m_id == id) l = some k) : id ∈ l.map (fun e => e.m_id) := by
  obtain ⟨e, he, hid⟩ := find_if_some id l k h
  exact List.mem_map.mpr ⟨e, List.getElem?_mem he, hid⟩

theorem find_if_of_nodup :
    ∀ (l : SerializedEntryList) (k : Nat) (e : SerializedEntry),
      (l.map (fun e => e.m_id)).Nodup → l[k]? = some e →
      find_if (fun x => x.m_id == e.m_id) l = some k := by
  intro l
  induction l with
  | nil => intro k e _ h; simp at h
  | cons a l ih =>
    intro k e hnd h
    simp only [List.map_cons, List.nodup_cons] at hnd
    cases k with
    | zero =>
      simp only [List.getElem?_cons_zero, Option.some.injEq] at h
      subst h
      simp [find_if]
    | succ k =>
      simp only [List.getElem?_cons_succ] at h
      have hne : a.m_id ≠ e.m_id := by
        intro hEq
        exact hnd.1 (hEq ▸ List.mem_map.mpr ⟨e, List.getElem?_mem h, rfl⟩)
      have hb : (a.m_id == e.m_id) = false := by simpa using hne
      simp [find_if, hb, ih k e hnd.2 h]

theorem assignRedoXml_getElem? (l : SerializedEntryList) (k j : Nat) (xml : String) :
    (assignRedoXml l k xml)[j]?
      = (l[j]?).map (fun e => if j = k then { e with m_redoXml := xml } else e) := by
  unfold assignRedoXml
  cases hk : l[k]? with
  | none =>
    by_cases hjk : j = k
    · subst hjk; simp [hk]
    · cases l[j]? <;> simp [hjk]
  | some entry =>
    have hlen : k < l.length := by
      rcases Nat.lt_or_ge k l.length with h | h
      · exact h
      · rw [List.getElem?_eq_none h] at hk; cases hk
    by_cases hjk : j = k
    · subst hjk
      simp [List.getElem?_set_self hlen, hk]
    · have hne : k ≠ j := fun h => hjk h.symm
      rw [List.getElem?_set_ne hne]
      cases l[j]? <;> simp [hjk]

theorem assignRedoXml_ids (l : SerializedEntryList) (k : Nat) (xml : String) :
    (assignRedoXml l k xml).map (fun e => e.m_id) = l.map (fun e => e.m_id) := by
  apply List.ext_getElem?
  intro j
  simp only [List.getElem?_map, assignRedoXml_getElem?]
  cases l[j]? with
  | none => rfl
  | some e => by_cases hjk : j = k <;> simp [hjk]

theorem serializeItem_redo_iff (codec : Codec) (widget : HierarchyWidget) (i : ItemPtr)
    (l r : SerializedEntryList) :
    serializeItem codec widget false i l = .ok r ↔
      canSerialize codec widget i = true ∧
      ∃ k, find_if (fun e => e.m_id == GetEntityId widget i) l = some k ∧
        r = assignRedoXml l k (xmlOf codec widget i) := by
  cases hcan : canSerialize codec widget i with
  | false =>
    obtain ⟨msg, hmsg⟩ := serializeItem_error codec widget false i l hcan
    simp [hmsg]
  | true =>
    rw [serializeItem_eq codec widget false i l hcan]
    by_cases hl : l.length = 0
    · have hnil : l = [] := List.length_eq_zero.mp hl
      subst hnil
      simp [find_if]
    · simp only [Bool.false_eq_true, if_false, hl, true_and]
      cases hf : find_if (fun e => e.m_id == GetEntityId widget i) l with
      | none => simp
      | some k =>
        simp only [Except.ok.injEq, Option.some.injEq, exists_eq_left']
        exact eq_comm

theorem serializeLoop_redo_ok (codec : Codec) (widget : HierarchyWidget) :
    ∀ (items : HierarchyItemRawPtrList) (l : SerializedEntryList),
      (∀ i ∈ items, canSerialize codec widget i = true ∧
        GetEntityId widget i ∈ l.map (fun e => e.m_id)) →
      ∃ r, serializeLoop codec widget false items l = .ok r := by
  intro items
  induction items with
  | nil => intro l _; exact ⟨l, rfl⟩
  | cons i rest ih =>
    intro l h
    obtain ⟨hcan, hmem⟩ := h i (List.mem_cons_self _ _)
    obtain ⟨k, hk⟩ := find_if_of_mem _ l hmem
    have hstep : serializeItem codec widget false i l
        = .ok (assignRedoXml l k (xmlOf codec widget i)) :=
      (serializeItem_redo_iff codec widget i l _).mpr ⟨hcan, k, hk, rfl⟩
    obtain ⟨r, hr⟩ := ih (assignRedoXml l k (xmlOf codec widget i)) (fun j hj => by
      rw [assignRedoXml_ids]
      exact h j (List.mem_cons_of_mem _ hj))
    exact ⟨r, by simp only [serializeLoop, hstep, hr]⟩

theorem serializeLoop_redo_spec (codec : Codec) (widget : HierarchyWidget) :
    ∀ (items : HierarchyItemRawPtrList) (l r : SerializedEntryList),
      serializeLoop codec widget false items l = .ok r →
      (∀ i ∈ items, canSerialize codec widget i = true ∧
        GetEntityId widget i ∈ l.map (fun e => e.m_id)) ∧
      r.map (fun e => e.m_id) = l.map (fun e => e.m_id) ∧
      ∀ k e, l[k]? = some e →
        ∃ e1, r[k]? = some e1 ∧ e1 = { e with m_redoXml := e1.m_redoXml } ∧
          (e1 = e ∨
            (find_if (fun x => x.m_id == e.m_id) l = some k ∧
              ∃ i ∈ items, GetEntityId widget i = e.m_id ∧
                e1.m_redoXml = xmlOf codec widget i)) ∧
          (find_if (fun x => x.m_id == e.m_id) l = some k →
            (∃ i ∈ items, GetEntityId widget i = e.m_id) →
            ∃ i ∈ items, GetEntityId widget i = e.m_id ∧
              e1.m_redoXml = xmlOf codec widget i) := by
  intro items
  induction items with
  | nil =>
    intro l r h
    simp only [serializeLoop, Except.ok.injEq] at h
    subst h
    refine ⟨fun i hi => absurd hi (List.not_mem_nil i), rfl, ?_⟩
    intro k e he
    refine ⟨e, he, rfl, Or.inl rfl, ?_⟩
    rintro _ ⟨i, hi, _⟩
    cases hi
  | cons i rest ih =>
    intro l r h
    simp only [serializeLoop] at h
    cases hstep : serializeItem codec widget false i l with
    | error msg => rw [hstep] at h; cases h
    | ok l1 =>
      rw [hstep] at h
      obtain ⟨hcan, k0, hk0, hl1⟩ := (serializeItem_redo_iff codec widget i l l1).mp hstep
      obtain ⟨hrest, hids, hidx⟩ := ih l1 r h
      have hids1 : l1.map (fun e => e.m_id) = l.map (fun e => e.m_id) := by
        rw [hl1]; exact assignRedoXml_ids l k0 _
      have hfind : ∀ id, find_if (fun x => x.m_id == id) l1
          = find_if (fun x => x.m_id == id) l := fun id => find_if_ids id l1 l hids1
      refine ⟨?_, hids.trans hids1, ?_⟩
      · intro j hj
        rcases List.mem_cons.mp hj with hj | hj
        · subst hj
          exact ⟨hcan, find_if_mem _ l k0 hk0⟩
        · have := hrest j hj
          rw [hids1] at this
          exact this
      · intro k e he
        have he1 : l1[k]? = some (if k = k0 then { e with m_redoXml := xmlOf codec widget i }
            else e) := by
          rw [hl1, assignRedoXml_getElem?, he]
          rfl
        have hm : (if k = k0 then { e with m_redoXml := xmlOf codec widget i } else e).m_id
            = e.m_id := by
          by_cases hkk : k = k0 <;> simp [hkk]
        obtain ⟨e1, hr, hframe, hdisj, hthird⟩ := hidx k _ he1
        rw [hm, hfind] at hdisj hthird
        have hk0id : k = k0 → GetEntityId widget i = e.m_id := by
          intro hkk
          obtain ⟨e0, he0, hid0⟩ := find_if_some _ l k0 hk0
          rw [← hkk, he] at he0
          injection he0 with he0
          rw [← hid0, he0]
        refine ⟨e1, hr, ?_, ?_, ?_⟩
        · rw [hframe]
          by_cases hkk : k = k0 <;> simp [hkk]
        · rcases hdisj with hEq | ⟨hf, j, hj, hjid, hjx⟩
          · by_cases hkk : k = k0
            · right
              have hidi := hk0id hkk
              refine ⟨by rw [← hidi, hkk]; exact hk0, i, List.mem_cons_self _ _, hidi, ?_⟩
              rw [hEq]
              simp [hkk]
            · left
              rw [hEq]
              simp [hkk]
          · exact Or.inr ⟨hf, j, List.mem_cons_of_mem _ hj, hjid, hjx⟩
        · intro hf hex
          by_cases hin : ∃ j ∈ rest, GetEntityId widget j = e.m_id
          · obtain ⟨j, hj, hjid, hjx⟩ := hthird hf hin
            exact ⟨j, List.mem_cons_of_mem _ hj, hjid, hjx⟩
          · obtain ⟨j, hj, hjid⟩ := hex
            rcases List.mem_cons.mp hj with hj | hj
            · subst hj
              have hkk : k = k0 := by
                rw [hjid, hf] at hk0
                injection hk0
              rcases hdisj with hEq | ⟨_, j2, hj2, hj2id, _⟩
              · refine ⟨j, List.mem_cons_self _ _, hjid, ?_⟩
                rw [hEq]
                simp [hkk]
              · exact absurd ⟨j2, hj2, hj2id⟩ hin
            · exact absurd ⟨j, hj, hjid⟩ hin

theorem undoEntries_ids (codec : Codec) (widget : HierarchyWidget)
    (items : HierarchyItemRawPtrList) (created : SerializedEntryList)
    (h : List.Forall₂ (UndoEntryOf codec widget) items created) :
    created.map (fun e => e.m_id) = items.map (GetEntityId widget) := by
  induction h with
  | nil => rfl
  | cons he _ ih => simp only [List.map_cons, ih, he.1]

theorem undoEntries_blobs (codec : Codec) (widget : HierarchyWidget)
    (items : HierarchyItemRawPtrList) (created : SerializedEntryList)
    (h : List.Forall₂ (UndoEntryOf codec widget) items created)
    (hcan : ∀ i ∈ items, canSerialize codec widget i = true) :
    ∀ e ∈ created, e.m_undoXml ≠ "" := by
  induction h with
  | nil => intro e he; cases he
  | @cons i e0 items created he _ ih =>
    intro e hmem
    rcases List.mem_cons.mp hmem with hEq | hmem
    · subst hEq
      rw [he.2.2.2.1]
      exact canSerialize_xmlOf codec widget i (hcan i (List.mem_cons_self _ _))
    · exact ih (fun j hj => hcan j (List.mem_cons_of_mem _ hj)) e hmem

theorem serializeItem_redo_error (codec : Codec) (widget : HierarchyWidget) (i : ItemPtr)
    (l : SerializedEntryList) (msg : String)
    (h : serializeItem codec widget false i l = .error msg)
    (hcan : canSerialize codec widget i = true) :
    msg = "Empty entry list" ∨ msg = "Entity ID not found in entryList" := by
  rw [serializeItem_eq codec widget false i l hcan] at h
  simp only [Bool.false_eq_true, if_false] at h
  by_cases hl : l.length = 0
  · simp only [hl, if_true, Except.error.injEq] at h
    exact Or.inl h.symm
  · simp only [hl, if_false] at h
    cases hf : find_if (fun e => e.m_id == GetEntityId widget i) l with
    | none =>
      rw [hf] at h
      simp only [Except.error.injEq] at h
      exact Or.inr h.symm
    | some k =>
      rw [hf] at h
      cases h

theorem serializeLoop_redo_violation (codec : Codec) (widget : HierarchyWidget) :
    ∀ (items : HierarchyItemRawPtrList) (l : SerializedEntryList),
      items ≠ [] →
      (l = [] ∨ ∃ i ∈ items, GetEntityId widget i ∉ l.map (fun e => e.m_id)) →
      ∃ msg, serializeLoop codec widget false items l = .error msg ∧
        ((∀ i ∈ items, canSerialize codec widget i = true) →
          msg = "Empty entry list" ∨ msg = "Entity ID not found in entryList") := by
  intro items
  induction items with
  | nil => intro l h; exact absurd rfl h
  | cons i rest ih =>
    intro l _ hbad
    cases hstep : serializeItem codec widget false i l with
    | error msg =>
      refine ⟨msg, by simp only [serializeLoop, hstep], ?_⟩
      intro hcan
      exact serializeItem_redo_error codec widget i l msg hstep
        (hcan i (List.mem_cons_self _ _))
    | ok l1 =>
      obtain ⟨_, k, hk, hl1⟩ := (serializeItem_redo_iff codec widget i l l1).mp hstep
      have hids : l1.map (fun e => e.m_id) = l.map (fun e => e.m_id) := by
        rw [hl1]; exact assignRedoXml_ids l k _
      have hmem : GetEntityId widget i ∈ l.map (fun e => e.m_id) := find_if_mem _ l k hk
      have hrest : ∃ j ∈ rest, GetEntityId widget j ∉ l.map (fun e => e.m_id) := by
        rcases hbad with hnil | ⟨j, hj, hjn⟩
        · subst hnil
          simp at hmem
        · rcases List.mem_cons.mp hj with hj | hj
          · subst hj
            exact absurd hmem hjn
          · exact ⟨j, hj, hjn⟩
      obtain ⟨j, hj, hjn⟩ := hrest
      obtain ⟨msg, hmsg, hwhich⟩ := ih l1 (List.ne_nil_of_mem hj)
        (Or.inr ⟨j, hj, by rw [hids]; exact hjn⟩)
      refine ⟨msg, by simp only [serializeLoop, hstep, hmsg], ?_⟩
      intro hcan
      exact hwhich (fun x hx => hcan x (List.mem_cons_of_mem _ hx))

/-! ## Claims about `Serialize` -/

theorem serialize_undo_then_redo_items (codec : Codec) (widget widget2 : HierarchyWidget)
    (selectedItems : HierarchyItemRawPtrList)
    (optionalItemsToSerialize : Option HierarchyItemRawPtrList)
    (hcan : ∀ i ∈ itemsToSerialize selectedItems optionalItemsToSerialize,
      canSerialize codec widget i = true)
    (hcan2 : ∀ i ∈ itemsToSerialize selectedItems optionalItemsToSerialize,
      canSerialize codec widget2 i = true ∧ GetEntityId widget2 i = GetEntityId widget i)
    (hnd : ((itemsToSerialize selectedItems optionalItemsToSerialize).map
      (GetEntityId widget)).Nodup) :
    ∃ l r,
      Serialize codec widget selectedItems optionalItemsToSerialize [] true = .ok l ∧
      Serialize codec widget2 selectedItems optionalItemsToSerialize l false = .ok r ∧
      r.length = (itemsToSerialize selectedItems optionalItemsToSerialize).length ∧
      (r.map (fun e => e.m_id)).Perm
        ((itemsToSerialize selectedItems optionalItemsToSerialize).map (GetEntityId widget)) ∧
      (r.map (fun e => e.m_id)).Nodup ∧
      ∀ e ∈ r, e.m_undoXml ≠ "" ∧ e.m_redoXml ≠ "" := by
  obtain ⟨created, hrun, hall⟩ :=
    Serialize_undo_spec codec widget selectedItems optionalItemsToSerialize [] hcan
  rw [List.nil_append] at hrun
  have hsortperm := SortByHierarchyOrder_perm
    (itemsToSerialize selectedItems optionalItemsToSerialize)
  have hmemS := mem_SortByHierarchyOrder
    (itemsToSerialize selectedItems optionalItemsToSerialize)
  have hidsl : created.map (fun e => e.m_id)
      = (SortByHierarchyOrder (itemsToSerialize selectedItems optionalItemsToSerialize)).map
          (GetEntityId widget) := undoEntries_ids codec widget _ _ hall
  have hperm : (created.map (fun e => e.m_id)).Perm
      ((itemsToSerialize selectedItems optionalItemsToSerialize).map (GetEntityId widget)) := by
    rw [hidsl]; exact hsortperm.map _
  have hndl : (created.map (fun e => e.m_id)).Nodup := hperm.nodup_iff.mpr hnd
  have hundo : ∀ e ∈ created, e.m_undoXml ≠ "" :=
    undoEntries_blobs codec widget _ _ hall (fun i hi => hcan i ((hmemS i).mp hi))
  have hpre : ∀ i ∈ SortByHierarchyOrder
      (itemsToSerialize selectedItems optionalItemsToSerialize),
      canSerialize codec widget2 i = true ∧
        GetEntityId widget2 i ∈ created.map (fun e => e.m_id) := by
    intro i hi
    obtain ⟨hc, hid⟩ := hcan2 i ((hmemS i).mp hi)
    refine ⟨hc, ?_⟩
    rw [hid, hidsl]
    exact List.mem_map.mpr ⟨i, hi, rfl⟩
  obtain ⟨r, hr⟩ := serializeLoop_redo_ok codec widget2 _ created hpre
  obtain ⟨_, hidsr, hidx⟩ := serializeLoop_redo_spec codec widget2 _ created r hr
  have hlen : r.length = created.length := by
    have := congrArg List.length hidsr
    simpa using this
  refine ⟨created, r, hrun, hr, ?_, ?_, ?_, ?_⟩
  · rw [hlen]
    have := congrArg List.length hidsl
    simp only [List.length_map] at this
    rw [this]
    exact hsortperm.length_eq
  · rw [hidsr]; exact hperm
  · rw [hidsr]; exact hndl
  · intro e1 he1
    obtain ⟨k, hk⟩ := List.getElem?_of_mem he1
    have hklt : k < created.length := by
      rw [← hlen]
      rcases Nat.lt_or_ge k r.length with h | h
      · exact h
      · rw [List.getElem?_eq_none h] at hk; cases hk
    have he : created[k]? = some created[k] := List.getElem?_eq_getElem hklt
    obtain ⟨e2, hr2, hframe, _, hthird⟩ := hidx k _ he
    rw [hk] at hr2
    injection hr2 with hr2
    subst hr2
    have hmemk : created[k] ∈ created := List.getElem_mem hklt
    refine ⟨?_, ?_⟩
    · have : e1.m_undoXml = created[k].m_undoXml := by rw [hframe]
      rw [this]
      exact hundo _ hmemk
    · have hidmem : created[k].m_id ∈ created.map (fun e => e.m_id) :=
        List.mem_map.mpr ⟨_, hmemk, rfl⟩
      rw [hidsl] at hidmem
      obtain ⟨i, hi, hid⟩ := List.mem_map.mp hidmem
      have hid2 : GetEntityId widget2 i = created[k].m_id := by
        rw [(hcan2 i ((hmemS i).mp hi)).2]; exact hid
      obtain ⟨j, hj, _, hjx⟩ := hthird (find_if_of_nodup created k _ hndl he) ⟨i, hi, hid2⟩
      rw [hjx]
      exact canSerialize_xmlOf codec widget2 j (hcan2 j ((hmemS j).mp hj)).1

/-- C10: redo-capture of nodes that can be encoded and whose ids all occur in the entry
list returns a list of the same length in which every entry keeps its position, id,
parent id, anchor id, undo blob and referenced slice assets. An entry whose id matches no
captured node, or which is not the first entry with its id, is returned unchanged; the
first entry with the id of a captured node gets as redo blob the new encoding of a
captured node with that id. -/
theorem Serialize_redo_changes_only_redo_blobs (codec : Codec) (widget : HierarchyWidget)
    (selectedItems : HierarchyItemRawPtrList)
    (optionalItemsToSerialize : Option HierarchyItemRawPtrList)
    (entryList : SerializedEntryList)
    (hcan : ∀ i ∈ itemsToSerialize selectedItems optionalItemsToSerialize,
      canSerialize codec widget i = true)
    (hids : ∀ i ∈ itemsToSerialize selectedItems optionalItemsToSerialize,
      GetEntityId widget i ∈ entryList.map (fun e => e.m_id)) :
    ∃ r,
      Serialize codec widget selectedItems optionalItemsToSerialize entryList false = .ok r ∧
      r.length = entryList.length ∧
      ∀ k e, entryList[k]? = some e →
        ∃ e1, r[k]? = some e1 ∧
          e1.m_id = e.m_id ∧ e1.m_parentId = e.m_parentId ∧
          e1.m_insertAboveThisId = e.m_insertAboveThisId ∧
          e1.m_undoXml = e.m_undoXml ∧
          e1.m_referencedSliceAssets = e.m_referencedSliceAssets ∧
          ((∀ i ∈ itemsToSerialize selectedItems optionalItemsToSerialize,
              GetEntityId widget i ≠ e.m_id) → e1 = e) ∧
          (find_if (fun x => x.m_id == e.m_id) entryList ≠ some k → e1 = e) ∧
          (find_if (fun x => x.m_id == e.m_id) entryList = some k →
            (∃ i ∈ itemsToSerialize selectedItems optionalItemsToSerialize,
              GetEntityId widget i = e.m_id) →
            ∃ i ∈ itemsToSerialize selectedItems optionalItemsToSerialize,
              GetEntityId widget i = e.m_id ∧ e1.m_redoXml = xmlOf codec widget i) := by
  have hmemS := mem_SortByHierarchyOrder
    (itemsToSerialize selectedItems optionalItemsToSerialize)
  obtain ⟨r, hr⟩ := serializeLoop_redo_ok codec widget
    (SortByHierarchyOrder (itemsToSerialize selectedItems optionalItemsToSerialize)) entryList
    (fun i hi => ⟨hcan i ((hmemS i).mp hi), hids i ((hmemS i).mp hi)⟩)
  obtain ⟨_, hidsr, hidx⟩ := serializeLoop_redo_spec codec widget _ entryList r hr
  refine ⟨r, hr, ?_, ?_⟩
  · have := congrArg List.length hidsr
    simpa using this
  · intro k e he
    obtain ⟨e1, hr1, hframe, hdisj, hthird⟩ := hidx k e he
    refine ⟨e1, hr1, ?_, ?_, ?_, ?_, ?_, ?_, ?_, ?_⟩
    · rw [hframe]
    · rw [hframe]
    · rw [hframe]
    · rw [hframe]
    · rw [hframe]
    · intro hno
      rcases hdisj with hEq | ⟨_, i, hi, hid, _⟩
      · exact hEq
      · exact absurd hid (hno i ((hmemS i).mp hi))
    · intro hnf
      rcases hdisj with hEq | ⟨hf, _⟩
      · exact hEq
      · exact absurd hf hnf
    · intro hf hex
      obtain ⟨i, hi, hid⟩ := hex
      obtain ⟨j, hj, hjid, hjx⟩ := hthird hf ⟨i, (hmemS i).mpr hi, hid⟩
      exact ⟨j, (hmemS j).mp hj, hjid, hjx⟩

theorem Serialize_redo_changes_only_redo_blobs_witness :
    (∀ i ∈ itemsToSerialize [[0, 1]] none, canSerialize exampleCodec editedWidget i = true) ∧
    (∀ i ∈ itemsToSerialize [[0, 1]] none,
      GetEntityId editedWidget i ∈ [entryB, entryGone].map (fun e => e.m_id)) ∧
    ∃ r e1,
      Serialize exampleCodec editedWidget [[0, 1]] none [entryB, entryGone] false = .ok r ∧
      r.length = 2 ∧ r[0]? = some e1 ∧ e1.m_undoXml = "<b>" ∧ r[1]? = some entryGone := by
  refine ⟨by decide, by decide, ?_⟩
  obtain ⟨r, hr, hlen, hidx⟩ :=
    Serialize_redo_changes_only_redo_blobs exampleCodec editedWidget [[0, 1]] none
      [entryB, entryGone] (by decide) (by decide)
  obtain ⟨e1, h0, _, _, _, hundo, _⟩ := hidx 0 entryB rfl
  obtain ⟨e2, h1, _, _, _, _, _, hsame, _⟩ := hidx 1 entryGone rfl
  have h2 : e2 = entryGone := hsame (by decide)
  subst h2
  exact ⟨r, e1, hr, hlen, h0, hundo, h1⟩

/-- C4: the entry list built by undo-capture does not depend on the order of the items:
selections that are permutations of each other give the same result, and so do optional
item lists that are permutations of each other. When every captured node can be encoded,
capture from the empty list succeeds and the sequence of entry ids is the sequence of ids
of the captured items arranged in hierarchy (document) order. -/
theorem Serialize_undo_hierarchy_order (codec : Codec) (widget : HierarchyWidget) :
    (∀ sel1 sel2 : HierarchyItemRawPtrList, sel1.Perm sel2 →
      Serialize codec widget sel1 none [] true = Serialize codec widget sel2 none [] true) ∧
    (∀ sel1 sel2 items1 items2 : HierarchyItemRawPtrList, items1.Perm items2 →
      Serialize codec widget sel1 (some items1) [] true
        = Serialize codec widget sel2 (some items2) [] true) ∧
    (∀ (sel : HierarchyItemRawPtrList) (opt : Option HierarchyItemRawPtrList),
      (∀ i ∈ itemsToSerialize sel opt, canSerialize codec widget i = true) →
      ∃ (r : SerializedEntryList) (sorted : HierarchyItemRawPtrList),
        Serialize codec widget sel opt [] true = .ok r ∧
        sorted.Perm (itemsToSerialize sel opt) ∧
        sorted.Sorted HierarchyOrder ∧
        r.map (fun e => e.m_id) = sorted.map (GetEntityId widget)) := by
  refine ⟨?_, ?_, ?_⟩
  · intro sel1 sel2 h
    unfold Serialize itemsToSerialize
    rw [SortByHierarchyOrder_congr _ _ (GetListOfTopLevelSelectedItems_perm sel1 sel2 h)]
  · intro sel1 sel2 items1 items2 h
    unfold Serialize itemsToSerialize
    rw [SortByHierarchyOrder_congr _ _ h]
  · intro sel opt hcan
    obtain ⟨created, hrun, hall⟩ := Serialize_undo_spec codec widget sel opt [] hcan
    rw [List.nil_append] at hrun
    exact ⟨created, SortByHierarchyOrder (itemsToSerialize sel opt), hrun,
      SortByHierarchyOrder_perm _, SortByHierarchyOrder_sorted _,
      undoEntries_ids codec widget _ _ hall⟩

theorem Serialize_undo_hierarchy_order_witness :
    List.Perm [[0, 2], [0, 0], [0, 1]] [[0, 1], [0, 2], [0, 0]] ∧
    Serialize exampleCodec exampleWidget [[0, 2], [0, 0], [0, 1]] none [] true
      = Serialize exampleCodec exampleWidget [[0, 1], [0, 2], [0, 0]] none [] true ∧
    (∀ i ∈ itemsToSerialize [[0, 2], [0, 0], [0, 1]] none,
      canSerialize exampleCodec exampleWidget i = true) ∧
    ∃ (r : SerializedEntryList) (sorted : HierarchyItemRawPtrList),
      Serialize exampleCodec exampleWidget [[0, 2], [0, 0], [0, 1]] none [] true = .ok r ∧
      sorted.Perm (itemsToSerialize [[0, 2], [0, 0], [0, 1]] none) ∧
      sorted.Sorted HierarchyOrder ∧
      r.map (fun e => e.m_id) = sorted.map (GetEntityId exampleWidget) :=
  ⟨by decide,
   (Serialize_undo_hierarchy_order exampleCodec exampleWidget).1 _ _ (by decide),
   by decide,
   (Serialize_undo_hierarchy_order exampleCodec exampleWidget).2.2
     [[0, 2], [0, 0], [0, 1]] none (by decide)⟩

/-- C6, as the code has it: redo-capture that captures at least one node, invoked with an
empty entry list or with an entry list lacking an entry for the id of one of the captured
nodes, fails with an assertion error instead of returning a list; when every captured
node can be encoded, the failed assertion is "Empty entry list" or "Entity ID not found
in entryList". -/
theorem Serialize_redo_contract_violation (codec : Codec) (widget : HierarchyWidget)
    (selectedItems : HierarchyItemRawPtrList)
    (optionalItemsToSerialize : Option HierarchyItemRawPtrList)
    (entryList : SerializedEntryList)
    (hne : itemsToSerialize selectedItems optionalItemsToSerialize ≠ [])
    (hbad : entryList = [] ∨
      ∃ i ∈ itemsToSerialize selectedItems optionalItemsToSerialize,
        GetEntityId widget i ∉ entryList.map (fun e => e.m_id)) :
    ∃ msg,
      Serialize codec widget selectedItems optionalItemsToSerialize entryList false
        = .error msg ∧
      ((∀ i ∈ itemsToSerialize selectedItems optionalItemsToSerialize,
          canSerialize codec widget i = true) →
        msg = "Empty entry list" ∨ msg = "Entity ID not found in entryList") := by
  have hmemS := mem_SortByHierarchyOrder
    (itemsToSerialize selectedItems optionalItemsToSerialize)
  have hne2 : SortByHierarchyOrder (itemsToSerialize selectedItems optionalItemsToSerialize)
      ≠ [] := by
    intro h
    cases hitems : itemsToSerialize selectedItems optionalItemsToSerialize with
    | nil => exact hne hitems
    | cons a t =>
      have : a ∈ SortByHierarchyOrder (itemsToSerialize selectedItems optionalItemsToSerialize) :=
        (hmemS a).mpr (by rw [hitems]; exact List.mem_cons_self _ _)
      rw [h] at this
      cases this
  obtain ⟨msg, hmsg, hwhich⟩ := serializeLoop_redo_violation codec widget _ entryList hne2
    (by
      rcases hbad with h | ⟨i, hi, hn⟩
      · exact Or.inl h
      · exact Or.inr ⟨i, (hmemS i).mpr hi, hn⟩)
  exact ⟨msg, hmsg, fun hcan => hwhich (fun i hi => hcan i ((hmemS i).mp hi))⟩

theorem Serialize_redo_contract_violation_witness :
    itemsToSerialize [[0, 1]] none ≠ [] ∧
    (([entryGone] : SerializedEntryList) = [] ∨
      ∃ i ∈ itemsToSerialize [[0, 1]] none,
        GetEntityId exampleWidget i ∉ [entryGone].map (fun e => e.m_id)) ∧
    ∃ msg,
      Serialize exampleCodec exampleWidget [[0, 1]] none [entryGone] false = .error msg ∧
      ((∀ i ∈ itemsToSerialize [[0, 1]] none,
          canSerialize exampleCodec exampleWidget i = true) →
        msg = "Empty entry list" ∨ msg = "Entity ID not found in entryList") :=
  ⟨by decide, Or.inr ⟨[0, 1], by decide, by decide⟩,
   Serialize_redo_contract_violation exampleCodec exampleWidget [[0, 1]] none [entryGone]
     (by decide) (Or.inr ⟨[0, 1], by decide, by decide⟩)⟩

/-- C6 as stated fails: redo-capture with an empty entry list and nothing to capture
returns the empty list, no assertion is evaluated. -/
theorem Serialize_redo_empty_list_returns :
    Serialize exampleCodec exampleWidget [] none [] false = .ok [] := rfl

/-- C7 as stated fails: undo-capture appends to the list it is given, so capturing `B`
into the list of an earlier capture of `B` returns two entries with the id of `B`. -/
theorem Serialize_undo_duplicate_ids :
    Serialize exampleCodec exampleWidget [[0, 1]] none [] true = .ok [entryB] ∧
    Serialize exampleCodec exampleWidget [[0, 1]] none [entryB] true = .ok [entryB, entryB] ∧
    ¬ (([entryB, entryB] : SerializedEntryList).map (fun e => e.m_id)).Nodup :=
  ⟨rfl, rfl, by decide⟩

/-- C7, as the code has it: undo-capture of nodes that can be encoded and have pairwise
distinct ids, into an entry list whose ids are unique and are not ids of the captured
nodes (the empty list in particular), returns a list in which no two entries have the
same id; redo-capture returns the ids it was given, so it preserves uniqueness. -/
theorem Serialize_entry_ids_unique (codec : Codec) (widget : HierarchyWidget)
    (selectedItems : HierarchyItemRawPtrList)
    (optionalItemsToSerialize : Option HierarchyItemRawPtrList)
    (entryList : SerializedEntryList)
    (hcan : ∀ i ∈ itemsToSerialize selectedItems optionalItemsToSerialize,
      canSerialize codec widget i = true)
    (hl : (entryList.map (fun e => e.m_id)).Nodup)
    (hnd : ((itemsToSerialize selectedItems optionalItemsToSerialize).map
      (GetEntityId widget)).Nodup)
    (hdisj : ∀ i ∈ itemsToSerialize selectedItems optionalItemsToSerialize,
      GetEntityId widget i ∉ entryList.map (fun e => e.m_id)) :
    (∃ r,
      Serialize codec widget selectedItems optionalItemsToSerialize entryList true = .ok r ∧
      (r.map (fun e => e.m_id)).Nodup) ∧
    (∀ (widget2 : HierarchyWidget) (sel2 : HierarchyItemRawPtrList)
        (opt2 : Option HierarchyItemRawPtrList) (l2 r2 : SerializedEntryList),
      Serialize codec widget2 sel2 opt2 l2 false = .ok r2 →
      (l2.map (fun e => e.m_id)).Nodup → (r2.map (fun e => e.m_id)).Nodup) := by
  refine ⟨?_, ?_⟩
  · obtain ⟨created, hrun, hall⟩ :=
      Serialize_undo_spec codec widget selectedItems optionalItemsToSerialize entryList hcan
    have hmemS := mem_SortByHierarchyOrder
      (itemsToSerialize selectedItems optionalItemsToSerialize)
    have hids := undoEntries_ids codec widget _ _ hall
    have hperm : (created.map (fun e => e.m_id)).Perm
        ((itemsToSerialize selectedItems optionalItemsToSerialize).map
          (GetEntityId widget)) := by
      rw [hids]
      exact (SortByHierarchyOrder_perm _).map _
    refine ⟨entryList ++ created, hrun, ?_⟩
    rw [List.map_append, List.nodup_append]
    refine ⟨hl, hperm.nodup_iff.mpr hnd, ?_⟩
    intro id hidl hidc
    rw [hids] at hidc
    obtain ⟨i, hi, hid⟩ := List.mem_map.mp hidc
    exact hdisj i ((hmemS i).mp hi) (hid ▸ hidl)
  · intro widget2 sel2 opt2 l2 r2 hr hl2
    obtain ⟨_, hidsr, _⟩ := serializeLoop_redo_spec codec widget2 _ l2 r2 hr
    rw [hidsr]
    exact hl2

theorem Serialize_entry_ids_unique_witness :
    (∀ i ∈ itemsToSerialize [[0, 2], [0, 0]] none,
      canSerialize exampleCodec exampleWidget i = true) ∧
    ([entryB].map (fun e => e.m_id)).Nodup ∧
    ((itemsToSerialize [[0, 2], [0, 0]] none).map (GetEntityId exampleWidget)).Nodup ∧
    (∀ i ∈ itemsToSerialize [[0, 2], [0, 0]] none,
      GetEntityId exampleWidget i ∉ [entryB].map (fun e => e.m_id)) ∧
    ∃ r,
      Serialize exampleCodec exampleWidget [[0, 2], [0, 0]] none [entryB] true = .ok r ∧
      (r.map (fun e => e.m_id)).Nodup :=
  ⟨by decide, by decide, by decide, by decide,
   (Serialize_entry_ids_unique exampleCodec exampleWidget [[0, 2], [0, 0]] none [entryB]
     (by decide) (by decide) (by decide) (by decide)).1⟩

/-- C8 as stated fails: with an optional item list the items are captured as given, so a
list holding `Root` and its child `B` yields an entry for the descendant `B` as well. -/
theorem Serialize_optional_items_not_reduced :
    isAncestorOf [0] [0, 1] = true ∧
    Serialize exampleCodec exampleWidget [] (some [[0], [0, 1]]) [] true
      = .ok [entryRoot, entryB] ∧
    GetEntityId exampleWidget [0, 1] ∈ [entryRoot, entryB].map (fun e => e.m_id) :=
  ⟨rfl, rfl, by decide⟩

/-- C8, as the code has it: undo-capture from the selection (no optional item list) into
the empty entry list, the selected nodes having pairwise distinct ids and the top-level
ones being encodable: when a node and one of its descendants are both selected, the
resulting list has no entry for the descendant, and it has an entry for every selected
node none of whose ancestors is selected. -/
theorem Serialize_selection_reduction (codec : Codec) (widget : HierarchyWidget)
    (selectedItems : HierarchyItemRawPtrList) (a d : ItemPtr)
    (ha : a ∈ selectedItems) (hd : d ∈ selectedItems) (hanc : isAncestorOf a d = true)
    (hnd : (selectedItems.map (GetEntityId widget)).Nodup)
    (hcan : ∀ i ∈ GetListOfTopLevelSelectedItems selectedItems,
      canSerialize codec widget i = true) :
    ∃ r,
      Serialize codec widget selectedItems none [] true = .ok r ∧
      GetEntityId widget d ∉ r.map (fun e => e.m_id) ∧
      (∀ t ∈ selectedItems, (∀ b ∈ selectedItems, isAncestorOf b t = false) →
        GetEntityId widget t ∈ r.map (fun e => e.m_id)) := by
  obtain ⟨created, hrun, hall⟩ := Serialize_undo_spec codec widget selectedItems none [] hcan
  rw [List.nil_append] at hrun
  have hids := undoEntries_ids codec widget _ _ hall
  have hmemS := mem_SortByHierarchyOrder (itemsToSerialize selectedItems none)
  have htop : ∀ t, t ∈ itemsToSerialize selectedItems none ↔
      t ∈ selectedItems ∧ ∀ b ∈ selectedItems, isAncestorOf b t = false := by
    intro t
    simp only [itemsToSerialize, GetListOfTopLevelSelectedItems, List.mem_filter,
      Bool.not_eq_true', List.any_eq_false, Bool.not_eq_true]
  refine ⟨created, hrun, ?_, ?_⟩
  · intro hmem
    rw [hids] at hmem
    obtain ⟨t, ht, hid⟩ := List.mem_map.mp hmem
    obtain ⟨htsel, htop1⟩ := (htop t).mp ((hmemS t).mp ht)
    have hEq : t = d := List.inj_on_of_nodup_map hnd htsel hd hid
    subst hEq
    have := htop1 a ha
    rw [hanc] at this
    cases this
  · intro t ht htop1
    rw [hids]
    exact List.mem_map.mpr ⟨t, (hmemS t).mpr ((htop t).mpr ⟨ht, htop1⟩), rfl⟩

theorem Serialize_selection_reduction_witness :
    [0] ∈ [[0, 1], [0]] ∧ [0, 1] ∈ [[0, 1], [0]] ∧ isAncestorOf [0] [0, 1] = true ∧
    (([[0, 1], [0]] : HierarchyItemRawPtrList).map (GetEntityId exampleWidget)).Nodup ∧
    (∀ i ∈ GetListOfTopLevelSelectedItems [[0, 1], [0]],
      canSerialize exampleCodec exampleWidget i = true) ∧
    ∃ r,
      Serialize exampleCodec exampleWidget [[0, 1], [0]] none [] true = .ok r ∧
      GetEntityId exampleWidget [0, 1] ∉ r.map (fun e => e.m_id) ∧
      (∀ t ∈ ([[0, 1], [0]] : HierarchyItemRawPtrList),
        (∀ b ∈ ([[0, 1], [0]] : HierarchyItemRawPtrList), isAncestorOf b t = false) →
        GetEntityId exampleWidget t ∈ r.map (fun e => e.m_id)) :=
  ⟨by decide, by decide, by decide, by decide, by decide,
   Serialize_selection_reduction exampleCodec exampleWidget [[0, 1], [0]] [0] [0, 1]
     (by decide) (by decide) (by decide) (by decide) (by decide)⟩

/-- C9: capture of an empty selection is a no-op and not an error. When no item is
resolved for capture, `Serialize` (either mode) returns the entry list it was given,
unchanged and without a failed assertion; `GetXml` of no elements is the empty string;
and `CopySelectedItemsToClipboard` with no top-level selected item leaves the clipboard
as it was. -/
theorem empty_selection_is_noop (codec : Codec) (mimeType : String) (hasEditor : Bool)
    (widget : HierarchyWidget) (selectedItems : HierarchyItemRawPtrList)
    (optionalItemsToSerialize : Option HierarchyItemRawPtrList)
    (entryList : SerializedEntryList) (isUndo : Bool) (clipboard : Clipboard)
    (hempty : itemsToSerialize selectedItems optionalItemsToSerialize = []) :
    Serialize codec widget selectedItems optionalItemsToSerialize entryList isUndo
      = .ok entryList ∧
    (∀ refs, GetXml codec [] refs = ("", refs)) ∧
    (GetListOfTopLevelSelectedItems selectedItems = [] →
      CopySelectedItemsToClipboard codec mimeType hasEditor widget selectedItems clipboard
        = .ok clipboard) := by
  refine ⟨?_, fun _ => rfl, ?_⟩
  · unfold Serialize
    rw [hempty]
    rfl
  · intro h
    unfold CopySelectedItemsToClipboard
    rw [h]
    rfl

theorem empty_selection_is_noop_witness :
    itemsToSerialize [] none = [] ∧
    Serialize exampleCodec exampleWidget [] none [entryB] false = .ok [entryB] ∧
    (∀ refs, GetXml exampleCodec [] refs = ("", refs)) ∧
    (GetListOfTopLevelSelectedItems [] = [] →
      CopySelectedItemsToClipboard exampleCodec "application/x-uicanvas" true exampleWidget []
        (some ("text/plain", "kept")) = .ok (some ("text/plain", "kept"))) :=
  ⟨rfl, empty_selection_is_noop exampleCodec "application/x-uicanvas" true exampleWidget []
    none [entryB] false (some ("text/plain", "kept")) rfl⟩

/-! ## Undo-capture followed by redo-capture of a selection -/

theorem mem_topLevel_iff (selectedItems : HierarchyItemRawPtrList) (t : ItemPtr) :
    t ∈ itemsToSerialize selectedItems none ↔ IsTopLevelSelected selectedItems t := by
  simp only [itemsToSerialize, GetListOfTopLevelSelectedItems, IsTopLevelSelected,
    List.mem_filter, Bool.not_eq_true', List.any_eq_false, Bool.not_eq_true]

theorem entries_with_id_length_one :
    ∀ (r : SerializedEntryList) (id : EntityId),
      (r.map (fun e => e.m_id)).Nodup → id ∈ r.map (fun e => e.m_id) →
      (r.filter (fun e => decide (e.m_id = id))).length = 1 := by
  intro r
  induction r with
  | nil => intro id _ h; simp at h
  | cons a r ih =>
    intro id hnd hmem
    simp only [List.map_cons, List.nodup_cons] at hnd
    by_cases ha : a.m_id = id
    · have hnone : r.filter (fun e => decide (e.m_id = id)) = [] := by
        rw [List.filter_eq_nil_iff]
        intro e he hid
        simp only [decide_eq_true_eq] at hid
        exact hnd.1 (List.mem_map.mpr ⟨e, he, hid.trans ha.symm⟩)
      simp [List.filter_cons, ha, hnone]
    · have hmem2 : id ∈ r.map (fun e => e.m_id) := by
        simp only [List.map_cons, List.mem_cons] at hmem
        rcases hmem with h | h
        · exact absurd h.symm ha
        · exact h
      simp [List.filter_cons, ha, ih id hnd.2 hmem2]

end HierarchyClipboard
